import Mathlib

/-!
Verification of the firmware-upgrade orchestration (`ota_upgrade`) in
`cli/rmaker_cmd/node.py` of the esp-rainmaker CLI.

The orchestrator is embedded shallowly: Python values that the code inspects
(truthiness, `in`, indexing, `is None`, `in [None, False]`) are modelled by the
inductive `Value`; the network collaborators (session construction, node
construction, service discovery, firmware upload, parameter get/set, status
poll) are abstracted as an `Oracle`, a stream of call results consumed one per
external call, each either a returned value or a raised exception
(`SSLError`, `NetworkError`/`RequestTimeoutError`, or any other `Exception`).
The interpreter records an event trace: one `Ev.call` per collaborator
invocation, one `Ev.sleep` per `time.sleep(5)`, one `Ev.retriesLeft` per
"Retries left" message, and `Ev.log` for the distinguishing log lines.
-/

namespace Rmaker

/-- Python values as far as `ota_upgrade` inspects them: `None`, booleans,
integers, strings, lists/tuples, and JSON-object dicts. -/
inductive Value where
  | none : Value
  | bool : Bool → Value
  | int : Int → Value
  | str : String → Value
  | list : List Value → Value
  | dict : List (String × Value) → Value

/-- Python truthiness: `None`, `False`, `0`, `""`, `[]`, `{}` are falsy. -/
def truthy : Value → Bool
  | .none => false
  | .bool b => b
  | .int n => n != 0
  | .str s => !s.data.isEmpty
  | .list l => !l.isEmpty
  | .dict l => !l.isEmpty

/-- Python `is None`. -/
def isNone : Value → Bool
  | .none => true
  | _ => false

/-- Python `v in [None, False]` (equality with `None` or `False`;
note `0 == False` in Python). -/
def eqNoneOrFalse : Value → Bool
  | .none => true
  | .bool false => true
  | .int n => n == 0
  | _ => false

/-- Decompose a list at the first occurrence of `sep` (as a contiguous
sublist): `findSep sep l = some (b, a)` when `l = b ++ sep ++ a` and `b` is
the shortest such prefix; `Option.none` when `sep` does not occur in `l`. -/
def findSep (sep : List Char) : List Char → Option (List Char × List Char)
  | [] => if sep.isPrefixOf ([] : List Char) then some ([], []) else Option.none
  | c :: cs =>
    if sep.isPrefixOf (c :: cs) then some ([], (c :: cs).drop sep.length)
    else (findSep sep cs).map (fun p => (c :: p.1, p.2))

/-- Python `key in v` for a string key: substring test on strings, key
membership on dicts, element equality on lists. `Option.none` models the
`TypeError` raised on `None`/booleans/integers. -/
def pyContains (v : Value) (key : String) : Option Bool :=
  match v with
  | .str s => some (findSep key.data s.data).isSome
  | .dict l => some ((l.map Prod.fst).contains key)
  | .list l => some (l.any (fun x => match x with | .str s => s == key | _ => false))
  | _ => Option.none

/-- Python `v[key]` for a string key: dict lookup. `Option.none` models the
`TypeError`/`KeyError` raised on every other shape. -/
def pyIndex (v : Value) (key : String) : Option Value :=
  match v with
  | .dict l => List.lookup key l
  | _ => Option.none

/-- Python tuple unpacking `a, b = v`: succeeds on two-element sequences
(modelled as two-element `Value.list`s), otherwise raises. -/
def unpack2 : Value → Option (Value × Value)
  | .list [a, b] => some (a, b)
  | _ => Option.none

/-- POSIX `os.path.isabs`: the path starts with `'/'`. -/
def pyIsAbs (p : String) : Bool := ['/'].isPrefixOf p.data

/-- String ends with `'/'`. -/
def endSlash (p : String) : Bool := ['/'].isPrefixOf p.data.reverse

/-- POSIX `os.path.join(a, b)`. -/
def pyJoin (a b : String) : String :=
  if pyIsAbs b then b
  else if a.data.isEmpty || endSlash a then a ++ b
  else a ++ "/" ++ b

/-- Fuelled core of Python `str.split(sep)` for a non-empty separator. -/
def pySplitF (sep : List Char) : Nat → List Char → List (List Char)
  | 0, l => [l]
  | fuel + 1, l =>
    match findSep sep l with
    | Option.none => [l]
    | some (b, a) => b :: pySplitF sep fuel a

/-- Python `str.split(sep)` on character lists (`l.length + 1` fuel always
suffices because each found separator consumes at least one character). -/
def pySplit (sep l : List Char) : List (List Char) := pySplitF sep (l.length + 1) l

/-- Source line 325: `img_file_path.split('/')[-1].split('.bin')[0]`. -/
def imgName (absPath : String) : String :=
  let comp := (pySplit ['/'] absPath.data).getLastD []
  String.mk ((pySplit ['.', 'b', 'i', 'n'] comp).headD [])

/-- Modelled from the spec words for C10: the portion of a component that
precedes the first occurrence of `sep`; the whole component when `sep` does
not occur. -/
def beforeFirst (sep : List Char) : List Char → List Char
  | [] => []
  | c :: cs => if sep.isPrefixOf (c :: cs) then [] else c :: beforeFirst sep cs

/-- Modelled from the spec words for C10: the last `'/'`-separated component,
i.e. the suffix after the last `'/'` (the whole string when no `'/'` occurs). -/
def afterLastCh (c : Char) (l : List Char) : List Char :=
  (l.reverse.takeWhile (fun x => x != c)).reverse

/-! ## The collaborator interface -/

/-- The three exception classes `ota_upgrade` distinguishes: `SSLError`,
the transient pair `NetworkError`/`RequestTimeoutError`, and every other
`Exception`. -/
inductive Exc where
  | ssl : Exc
  | transient : Exc
  | other : Exc
deriving DecidableEq

/-- Result of one collaborator call: a returned value or a raised exception. -/
inductive CallRes where
  | ok : Value → CallRes
  | exc : Exc → CallRes

/-- The environment: the result of the n-th external call of the run
(file read, HTTP requests, constructors that may fail). -/
def Oracle : Type := Nat → CallRes

/-- The external sub-steps of `ota_upgrade`, in source order. -/
inductive Step where
  | readFile : Step        -- open(img_file_path).read()
  | sessionNew : Step      -- session.Session()
  | nodeNew : Step         -- node.Node(node_id, curr_session)
  | serviceNew : Step      -- service.Service()
  | verifyService : Step   -- service_obj.verify_service_exists(...)
  | upload : Step          -- service_obj.upload_ota_image(...)
  | getServiceParams : Step  -- service_obj.get_service_params(service_config)
  | getNodeParams : Step   -- node_object.get_node_params()
  | startOta : Step        -- service_obj.start_ota(...)
  | checkOta : Step        -- service_obj.check_ota_status(...)
deriving DecidableEq

/-- The distinguishing log/print lines the claims refer to. -/
inductive Msg where
  | creatingService : Msg    -- "Creating service object..."
  | checkingService : Msg    -- "Checking <ota> in node config..."
  | otaNotFound : Msg        -- "<ota> not found."
  | checkSuccess : Msg       -- "Checking service <ota> in config...Success"
  | uploading : Msg          -- "Uploading OTA Firmware Image..."
  | sslError : Msg           -- log.error(SSLError())
  | connError : Msg          -- print/log.warn of the transient error
  | otherError : Msg         -- log.error of a generic Exception in a loop
  | sessionInitFailed : Msg  -- "Initialising new session...Failed"
  | otaFailedA : Msg         -- "OTA Upgrade...Failed" (phase A, line 389)
  | uploadReqSuccess : Msg   -- "Upload OTA Firmware Image Request...Success"
  | gotSvcParams : Msg       -- service params received / "Getting node params"
  | settingOtaUrl : Msg      -- "Setting the OTA URL parameter..."
  | gettingOtaStatus : Msg   -- "Getting OTA Status..."
  | startOtaFailed : Msg     -- "Failed to start OTA service...Exiting..."
  | otaFailedB : Msg         -- "OTA Upgrade...Failed" (phase B, line 449)
  | outerError : Msg         -- log.error in the outermost except handler
deriving DecidableEq

/-- Trace events: collaborator invocations (flag: did the call return and,
for pair-valued calls, unpack), `time.sleep(5)` backoffs, "Retries left: n"
messages, and log lines. -/
inductive Ev where
  | call : Step → Bool → Ev
  | sleep : Ev
  | retriesLeft : Nat → Ev
  | log : Msg → Ev
deriving DecidableEq

/-- Number of invocations of sub-step `t` in a trace. -/
def callCount (t : Step) (evs : List Ev) : Nat :=
  evs.countP (fun e => match e with | Ev.call u _ => u == t | _ => false)

/-- Number of successful (returned-and-unpacked) invocations of `t`. -/
def okCount (t : Step) (evs : List Ev) : Nat :=
  evs.countP (fun e => match e with | Ev.call u true => u == t | _ => false)

/-- Number of `time.sleep(5)` backoffs in a trace. -/
def sleepCount (evs : List Ev) : Nat :=
  evs.countP (fun e => match e with | Ev.sleep => true | _ => false)

/-- Once sub-step `t` has returned successfully, it is never invoked again
(in any way) later in the trace. -/
def afterOkNoCall (t : Step) : List Ev → Bool
  | [] => true
  | Ev.call u true :: rest =>
    if u = t then callCount t rest == 0 else afterOkNoCall t rest
  | _ :: rest => afterOkNoCall t rest

/-! ## Orchestrator state -/

/-- Phase A working memory: the local variables initialised to `None` at
source lines 331-339 (the ones phase A writes). -/
structure StA where
  currSession : Value
  nodeObject : Value
  serviceObj : Value
  serviceConfig : Value
  serviceName : Value
  status : Value
  response : Value

def initA : StA := ⟨.none, .none, .none, .none, .none, .none, .none⟩

/-- Phase B working memory: the variables reset at source lines 400-404,
plus the phase A `response` it reads and `param_url_to_set`. -/
structure StB where
  response : Value
  paramUrl : Value
  readParams : Value
  writeParams : Value
  nodeParams : Value
  otaStartStatus : Value
  otaStatus : Value

def initB (response : Value) : StB :=
  ⟨response, .none, .none, .none, .none, .none, .none⟩

/-- A state together with the oracle cursor and the trace so far. -/
structure Sout (σ : Type) where
  st : σ
  k : Nat
  evs : List Ev

/-- Result of one body of the `while` loop: fall through to the
sleep/decrement epilogue (`nx` for normal completion, `tr` for a caught
transient error) or `break` out of the loop (`br`). -/
inductive R (σ : Type) where
  | nx : Sout σ → R σ
  | br : Sout σ → R σ
  | tr : Sout σ → R σ

/-- The carried state of a loop-body result. -/
def sOf {σ : Type} : R σ → Sout σ
  | .nx s => s
  | .br s => s
  | .tr s => s

/-- The three `except` arms shared by both loops: `SSLError` logs and breaks,
`NetworkError`/`RequestTimeoutError` logs and falls to the sleep/decrement
epilogue, any other `Exception` logs and breaks. -/
def excRes {σ : Type} (t : Step) (e : Exc) (st : σ) (k : Nat) (evs : List Ev) : R σ :=
  match e with
  | .ssl => .br ⟨st, k + 1, evs ++ [Ev.call t false, Ev.log .sslError]⟩
  | .transient => .tr ⟨st, k + 1, evs ++ [Ev.call t false, Ev.log .connError]⟩
  | .other => .br ⟨st, k + 1, evs ++ [Ev.call t false, Ev.log .otherError]⟩

/-- Loop-body continuation kind after a returned call. -/
inductive StepKind where
  | knx : StepKind
  | kbr : StepKind

/-- What a sub-step does with a returned value: updated state, whether the
assignment succeeded (tuple unpack), extra log lines, and whether the body
continues or `break`s. -/
structure StepOut (σ : Type) where
  st : σ
  okF : Bool
  logs : List Msg
  kind : StepKind

/-- One memoized sub-step: its identity, its guard (`need` is the truthiness
test deciding whether the cached result is absent and the call must be made),
and its handling of a returned value. -/
structure SubstepDef (σ : Type) where
  mine : Step
  need : σ → Bool
  onOk : σ → Value → StepOut σ

/-- Execute one sub-step: skip when the result is cached, otherwise consume
one oracle result; exceptions go to the shared handlers. -/
def mkStep {σ : Type} (d : SubstepDef σ) (o : Oracle) (s : Sout σ) : R σ :=
  if d.need s.st then
    match o s.k with
    | .ok v =>
      let r := d.onOk s.st v
      let evs := s.evs ++ Ev.call d.mine r.okF :: r.logs.map Ev.log
      match r.kind with
      | .knx => .nx ⟨r.st, s.k + 1, evs⟩
      | .kbr => .br ⟨r.st, s.k + 1, evs⟩
    | .exc e => excRes d.mine e s.st s.k s.evs
  else .nx s

/-- Run the sub-steps of one loop body in order; any `break`/transient stops
the sequence. -/
def runSubsteps {σ : Type} (o : Oracle) : List (SubstepDef σ) → Sout σ → R σ
  | [], s => .nx s
  | d :: ds, s =>
    match mkStep d o s with
    | .nx s1 => runSubsteps o ds s1
    | .br s1 => .br s1
    | .tr s1 => .tr s1

/-! ## Phase A sub-steps (source lines 344-367) -/

/-- Line 344: `if not curr_session: curr_session = session.Session()`. -/
def sessionDef : SubstepDef StA where
  mine := .sessionNew
  need := fun st => !truthy st.currSession
  onOk := fun st v => ⟨{ st with currSession := v }, true, [], .knx⟩

/-- Line 346: `if not node_object: node_object = node.Node(node_id, curr_session)`. -/
def nodeDef : SubstepDef StA where
  mine := .nodeNew
  need := fun st => !truthy st.nodeObject
  onOk := fun st v => ⟨{ st with nodeObject := v }, true, [.creatingService], .knx⟩

/-- Line 349: `if not service_obj: service_obj = service.Service()`. -/
def serviceDef : SubstepDef StA where
  mine := .serviceNew
  need := fun st => !truthy st.serviceObj
  onOk := fun st v => ⟨{ st with serviceObj := v }, true, [.checkingService], .knx⟩

/-- Lines 353-362: discover the OTA service; `break` fatally when the
returned config is falsy ("capability not found"). -/
def verifyDef : SubstepDef StA where
  mine := .verifyService
  need := fun st => !(truthy st.serviceConfig || truthy st.serviceName)
  onOk := fun st v =>
    match unpack2 v with
    | Option.none => ⟨st, false, [.otherError], .kbr⟩
    | some (cfg, nm) =>
      if truthy cfg then
        ⟨{ st with serviceConfig := cfg, serviceName := nm }, true,
          [.checkSuccess, .uploading], .knx⟩
      else
        ⟨{ st with serviceConfig := cfg, serviceName := nm }, true,
          [.otaNotFound], .kbr⟩

/-- Lines 363-367: upload the image; `break` (success) when the returned
status is truthy, otherwise fall through to the retry epilogue. -/
def uploadDef : SubstepDef StA where
  mine := .upload
  need := fun st => !(truthy st.status || truthy st.response)
  onOk := fun st v =>
    match unpack2 v with
    | Option.none => ⟨st, false, [.otherError], .kbr⟩
    | some (st0, rsp) =>
      if truthy st0 then ⟨{ st with status := st0, response := rsp }, true, [], .kbr⟩
      else ⟨{ st with status := st0, response := rsp }, true, [], .knx⟩

def stepsA : List (SubstepDef StA) := [sessionDef, nodeDef, serviceDef, verifyDef, uploadDef]

/-- One body of the phase A `while` loop (lines 341-376). -/
def iterA (o : Oracle) (s : Sout StA) : R StA := runSubsteps o stepsA s

/-! ## Phase B sub-steps (source lines 407-441) -/

/-- Lines 411-416: resolve the service's read/write property sets. -/
def svcParamsDef : SubstepDef StB where
  mine := .getServiceParams
  need := fun st => !(truthy st.readParams || truthy st.writeParams)
  onOk := fun st v =>
    match unpack2 v with
    | Option.none => ⟨st, false, [.otherError], .kbr⟩
    | some (rp, wp) =>
      ⟨{ st with readParams := rp, writeParams := wp }, true, [.gotSvcParams], .knx⟩

/-- Lines 417-420: fetch the node's current parameters. -/
def nodeParamsDef : SubstepDef StB where
  mine := .getNodeParams
  need := fun st => !truthy st.nodeParams
  onOk := fun st v => ⟨{ st with nodeParams := v }, true, [.settingOtaUrl], .knx⟩

/-- Lines 422-429: issue the start-OTA command; `break` fatally when the
device rejects it (falsy result). -/
def startOtaDef : SubstepDef StB where
  mine := .startOta
  need := fun st => !truthy st.otaStartStatus
  onOk := fun st v =>
    if truthy v then ⟨{ st with otaStartStatus := v }, true, [.gettingOtaStatus], .knx⟩
    else ⟨{ st with otaStartStatus := v }, true, [.startOtaFailed], .kbr⟩

/-- Lines 430-432: poll the OTA status once; any returned value is terminal
(`break` unconditionally after the assignment). -/
def checkOtaDef : SubstepDef StB where
  mine := .checkOta
  need := fun st => !truthy st.otaStatus
  onOk := fun st v => ⟨{ st with otaStatus := v }, true, [], .kbr⟩

def stepsB : List (SubstepDef StB) := [svcParamsDef, nodeParamsDef, startOtaDef, checkOtaDef]

/-- One body of the phase B `while` loop (lines 406-441). The whole body is
guarded by `if 'image_url' in response` (line 408); a `TypeError` from the
membership test or the indexing is caught by the generic handler (break). -/
def iterB (o : Oracle) (s : Sout StB) : R StB :=
  match pyContains s.st.response "image_url" with
  | Option.none => .br ⟨s.st, s.k, s.evs ++ [Ev.log .otherError]⟩
  | some false => .nx s
  | some true =>
    match pyIndex s.st.response "image_url" with
    | Option.none => .br ⟨s.st, s.k, s.evs ++ [Ev.log .otherError]⟩
    | some u => runSubsteps o stepsB ⟨{ s.st with paramUrl := u }, s.k, s.evs⟩

/-! ## The retry loops and the command -/

/-- Source line 35. -/
def MAX_HTTP_CONNECTION_RETRIES : Nat := 5

/-- The shared `while retries > 0` scaffold: on fall-through,
`time.sleep(5)`, decrement, and print "Retries left" when any remain
(lines 377-381 and 442-446). -/
def runLoop {σ : Type} (iter : Sout σ → R σ) : Nat → Sout σ → Sout σ
  | 0, s => s
  | r + 1, s =>
    match iter s with
    | .br s1 => s1
    | .nx s1 | .tr s1 =>
      runLoop iter r
        { s1 with evs := s1.evs ++ Ev.sleep :: (if 0 < r then [Ev.retriesLeft r] else []) }

/-- The terminal outcome communicated by the command's logs: caught outer
exception, `node_object is None` after phase A, phase A status failure,
phase B status `in [None, False]`, or success. -/
inductive Outcome where
  | caughtError : Outcome
  | sessionFailed : Outcome
  | phaseAFailed : Outcome
  | phaseBFailed : Outcome
  | success : Outcome
deriving DecidableEq

/-- The distinguishing log message of each failing outcome. -/
def failMsg : Outcome → Msg
  | .caughtError => .outerError
  | .sessionFailed => .sessionInitFailed
  | .phaseAFailed => .otaFailedA
  | .phaseBFailed => .otaFailedB
  | .success => .uploadReqSuccess

/-- Everything `ota_upgrade` leaves behind: the resolved path and image name,
both phases' final variables, the trace, and the outcome. -/
structure RunResult where
  absPath : String
  name : String
  stA : StA
  stB : StB
  evs : List Ev
  outcome : Outcome

/-- The phase B retry loop (lines 399-446): fresh budget, starting from the
reset variables of lines 400-404 and phase A's `response`, after the
success log of line 394. -/
def loopBResult (o : Oracle) (sA : Sout StA) : Sout StB :=
  runLoop (iterB o) MAX_HTTP_CONNECTION_RETRIES
    ⟨initB sA.st.response, sA.k, sA.evs ++ [Ev.log .uploadReqSuccess]⟩

/-- Source lines 383-451: the checks after the phase A loop, the phase B
loop, and the final status check. -/
def runPost (o : Oracle) (absPath nm : String) (sA : Sout StA) : RunResult :=
  if isNone sA.st.nodeObject then
    ⟨absPath, nm, sA.st, initB sA.st.response,
      sA.evs ++ [Ev.log .sessionInitFailed], .sessionFailed⟩
  else if !truthy sA.st.status then
    ⟨absPath, nm, sA.st, initB sA.st.response,
      sA.evs ++ [Ev.log .otaFailedA], .phaseAFailed⟩
  else
    match pyContains sA.st.status "success" with
    | Option.none =>
      ⟨absPath, nm, sA.st, initB sA.st.response,
        sA.evs ++ [Ev.log .outerError], .caughtError⟩
    | some false =>
      ⟨absPath, nm, sA.st, initB sA.st.response,
        sA.evs ++ [Ev.log .otaFailedA], .phaseAFailed⟩
    | some true =>
      let sB := loopBResult o sA
      if eqNoneOrFalse sB.st.otaStatus then
        ⟨absPath, nm, sA.st, sB.st, sB.evs ++ [Ev.log .otaFailedB], .phaseBFailed⟩
      else
        ⟨absPath, nm, sA.st, sB.st, sB.evs, .success⟩

/-- Source lines 323-324: an absolute path is used as is, a relative one is
joined onto the current working directory. -/
def absPathOf (imgFilePath cwd : String) : String :=
  if pyIsAbs imgFilePath then imgFilePath else pyJoin cwd imgFilePath

/-- The phase A retry loop (lines 330-381), started right after the one file
read (oracle slot 0), on the all-`None` variables of lines 331-339. -/
def loopAResult (o : Oracle) : Sout StA :=
  runLoop (iterA o) MAX_HTTP_CONNECTION_RETRIES ⟨initA, 1, [Ev.call .readFile true]⟩

/-- The orchestrator `ota_upgrade(vars)` (source lines 314-456): resolve the
image path against the cwd, compute the image name, read the image file once
(oracle slot 0; a failure is caught by the outermost handler and terminates
with no retry), run the phase A retry loop, then the post-loop checks and
phase B. -/
def ota_upgrade (o : Oracle) (imgFilePath cwd : String) : RunResult :=
  let absPath := absPathOf imgFilePath cwd
  let nm := imgName absPath
  match o 0 with
  | .exc _ =>
    ⟨absPath, nm, initA, initB .none,
      [Ev.call .readFile false, Ev.log .outerError], .caughtError⟩
  | .ok _ => runPost o absPath nm (loopAResult o)

/-- A returned collaborator value that the truthiness-keyed caches can
actually retain: truthy, and for pair-valued results both components truthy. -/
def properVal (v : Value) : Bool :=
  match v with
  | .list [a, b] => truthy a && truthy b
  | _ => truthy v

/-- Proper oracle result: exceptions are unrestricted, returned values are
`properVal`. -/
def properRes : CallRes → Bool
  | .ok v => properVal v
  | .exc _ => true

/-- An oracle whose successful results are all cacheable (truthy). Failures
(including transient ones, in any positions) are unrestricted. -/
def properOracle (o : Oracle) : Prop := ∀ n v, o n = .ok v → properVal v = true

/-- Oracle built from a finite script; calls beyond the script fail
transiently. -/
def oracleAt : List CallRes → Nat → CallRes
  | [], _ => .exc .transient
  | x :: _, 0 => x
  | _ :: xs, n + 1 => oracleAt xs n

def oracleOf (l : List CallRes) : Oracle := fun n => oracleAt l n

/-- The trace one phase leaves behind when every attempt fails transiently:
`r` failing attempts of the first uncached sub-step `t`, each followed by the
transient log, the backoff sleep, and ("Retries left" only while budget
remains) the retries message. -/
def transPat (t : Step) : Nat → List Ev
  | 0 => []
  | r + 1 =>
    Ev.call t false :: Ev.log .connError :: Ev.sleep ::
      ((if 0 < r then [Ev.retriesLeft r] else []) ++ transPat t r)

/-- Drop a trace prefix up to and including its first call event. -/
def dropToFirstCall : List Ev → List Ev
  | [] => []
  | Ev.call _ _ :: rest => rest
  | _ :: rest => dropToFirstCall rest

/-- The segment of a trace strictly between its first and its last call
event (used to count the backoff delays observed between attempts). -/
def betweenCalls (evs : List Ev) : List Ev :=
  dropToFirstCall ((dropToFirstCall evs.reverse).reverse)

/-- A proper scenario: upload succeeds after two transient failures of the
session step and one of the upload step itself, then phase B succeeds with
one transient failure of the start command (spec scenario B flavour). -/
def c1Script : List CallRes :=
  [.ok (.str "bytes"),                               -- readFile
   .exc .transient, .exc .transient,                 -- session x2
   .ok (.str "sess"), .ok (.str "node"), .ok (.str "svc"),
   .ok (.list [.str "cfg", .str "ota"]),             -- verify
   .exc .transient,                                  -- upload transient
   .ok (.list [.str "success", .dict [("image_url", .str "u")]]),
   .ok (.list [.list [.str "r"], .list [.str "w"]]), -- svc params
   .exc .transient,                                  -- node params transient
   .ok (.dict [("p", .int 1)]),                      -- node params
   .ok (.str "started"),                             -- start ota
   .ok (.dict [("status", .str "completed")])]       -- check ota

/-- Oracle witnessing budget exhaustion: the file read succeeds, every
network call fails transiently. -/
def oC2 : Oracle := fun n => if n = 0 then .ok (.str "bytes") else .exc .transient

/-- Every call fails transiently. -/
def oTransient : Oracle := fun _ => .exc .transient

/-- Every call raises `SSLError`. -/
def oSsl : Oracle := fun _ => .exc .ssl

/-- The file read itself raises. -/
def oReadFail : Oracle := oracleOf [.exc .other]

/-- Service discovery returns no matching capability (falsy config). -/
def oNotFound : Oracle := fun _ => .ok (.list [.none, .str "ota"])

/-- The upload succeeds with a success status and an `image_url` response. -/
def oUploadOk : Oracle :=
  fun _ => .ok (.list [.str "success", .dict [("image_url", .str "u")]])

/-- The device rejects the start command (falsy result). -/
def oStartReject : Oracle := fun _ => .ok (.bool false)

/-- The status poll returns a value. -/
def oPollOk : Oracle := fun _ => .ok (.str "done")

/-- A phase B entry state whose response carries an `image_url` and whose
caches are all empty. -/
def c2StateB : Sout StB := ⟨initB (.dict [("image_url", .str "u")]), 6, []⟩

/-- A phase A state with session, node and service cached and the service
descriptor not yet discovered. -/
def c3StateA : Sout StA :=
  ⟨⟨.str "s", .str "n", .str "svc", .none, .none, .none, .none⟩, 4, []⟩

/-- A phase B state ready to issue the start command. -/
def c3StateB : Sout StB :=
  ⟨⟨.dict [("image_url", .str "u")], .none, .list [.str "r"], .list [.str "w"],
    .dict [("p", .int 1)], .none, .none⟩, 9, []⟩

/-- A phase A state with everything but the upload cached. -/
def c6StateA : Sout StA :=
  ⟨⟨.str "s", .str "n", .str "svc", .str "cfg", .str "ota", .none, .none⟩, 5, []⟩

/-- A phase B state ready for the final status poll. -/
def c6StateB : Sout StB :=
  ⟨⟨.dict [("image_url", .str "u")], .none, .list [.str "r"], .list [],
    .dict [("p", .int 1)], .str "started", .none⟩, 9, []⟩

/-- A fresh phase A state. -/
def c7StateA : Sout StA := ⟨initA, 1, []⟩

/-- Phase A succeeds, then the property-set resolution returns the falsy
pair `([], [])` and the node-params call fails transiently (twice), so the
truthiness-keyed guard re-runs the resolution. -/
def c9Script : List CallRes :=
  [.ok (.str "bytes"), .ok (.str "sess"), .ok (.str "node"), .ok (.str "svc"),
   .ok (.list [.str "cfg", .str "ota"]),
   .ok (.list [.str "success", .dict [("image_url", .str "u")]]),
   .ok (.list [.list [], .list []]),
   .exc .transient,
   .ok (.list [.list [], .list []])]

/-- The upload returns the falsy pair `(None, None)`: its guard re-runs it
on every remaining iteration. -/
def c9bScript : List CallRes :=
  [.ok (.str "bytes"), .ok (.str "sess"), .ok (.str "node"), .ok (.str "svc"),
   .ok (.list [.str "cfg", .str "ota"]),
   .ok (.list [.none, .none])]

/-- The "result already cached" test for each phase A sub-step, exactly the
negation of the source guards; steps not memoized by phase A count as done
(phase A never invokes them). -/
def doneA (t : Step) (st : StA) : Bool :=
  match t with
  | .sessionNew => truthy st.currSession
  | .nodeNew => truthy st.nodeObject
  | .serviceNew => truthy st.serviceObj
  | .verifyService => truthy st.serviceConfig || truthy st.serviceName
  | .upload => truthy st.status || truthy st.response
  | _ => true

/-- The "result already cached" test for each phase B sub-step. -/
def doneB (t : Step) (st : StB) : Bool :=
  match t with
  | .getServiceParams => truthy st.readParams || truthy st.writeParams
  | .getNodeParams => truthy st.nodeParams
  | .startOta => truthy st.otaStartStatus
  | .checkOta => truthy st.otaStatus
  | _ => true

/-- A sub-step respects the memoization discipline: guarded updates preserve
other caches, a proper returned value fills its own cache (or the assignment
fails), and the guard is exactly the negated cache test. -/
structure SubstepOK {σ : Type} (done : Step → σ → Bool) (d : SubstepDef σ) : Prop where
  mono : ∀ st v u, d.need st = true → done u st = true → done u ((d.onOk st v).st) = true
  okDone : ∀ st v, properVal v = true →
    (d.onOk st v).okF = false ∨ done d.mine ((d.onOk st v).st) = true
  needDef : ∀ st, d.need st = !done d.mine st

/-- The guarantees one loop body gives, for a phase with cache predicate
`done`: the body only appends events, never sleeps, invokes each sub-step at
most once, skips cached sub-steps, preserves caches, and (for proper
oracles) a successful invocation fills the cache. -/
def IterSpec {σ : Type} (done : Step → σ → Bool) (f : Sout σ → R σ) (P : Prop) : Prop :=
  ∀ s t, ∃ Δ, (sOf (f s)).evs = s.evs ++ Δ ∧
    sleepCount Δ = 0 ∧
    callCount t Δ ≤ 1 ∧
    (done t s.st = true → callCount t Δ = 0) ∧
    (∀ u, done u s.st = true → done u (sOf (f s)).st = true) ∧
    (P → okCount t Δ = 0 ∨ done t (sOf (f s)).st = true)

/-! ## Trace counting lemmas -/

@[simp] lemma callCount_nil (t : Step) : callCount t [] = 0 := rfl

@[simp] lemma okCount_nil (t : Step) : okCount t [] = 0 := rfl

@[simp] lemma sleepCount_nil : sleepCount [] = 0 := rfl

@[simp] lemma callCount_append (t : Step) (a b : List Ev) :
    callCount t (a ++ b) = callCount t a + callCount t b := by
  simp [callCount, List.countP_append]

@[simp] lemma okCount_append (t : Step) (a b : List Ev) :
    okCount t (a ++ b) = okCount t a + okCount t b := by
  simp [okCount, List.countP_append]

@[simp] lemma sleepCount_append (a b : List Ev) :
    sleepCount (a ++ b) = sleepCount a + sleepCount b := by
  simp [sleepCount, List.countP_append]

@[simp] lemma callCount_cons_call (t u : Step) (b : Bool) (l : List Ev) :
    callCount t (Ev.call u b :: l) = callCount t l + (if u = t then 1 else 0) := by
  by_cases h : u = t <;> simp [callCount, List.countP_cons, h]

@[simp] lemma callCount_cons_sleep (t : Step) (l : List Ev) :
    callCount t (Ev.sleep :: l) = callCount t l := by
  simp [callCount, List.countP_cons]

@[simp] lemma callCount_cons_retries (t : Step) (n : Nat) (l : List Ev) :
    callCount t (Ev.retriesLeft n :: l) = callCount t l := by
  simp [callCount, List.countP_cons]

@[simp] lemma callCount_cons_log (t : Step) (m : Msg) (l : List Ev) :
    callCount t (Ev.log m :: l) = callCount t l := by
  simp [callCount, List.countP_cons]

@[simp] lemma okCount_cons_call (t u : Step) (b : Bool) (l : List Ev) :
    okCount t (Ev.call u b :: l) =
      okCount t l + (if u = t ∧ b = true then 1 else 0) := by
  cases b <;> by_cases h : u = t <;> simp [okCount, List.countP_cons, h]

@[simp] lemma okCount_cons_sleep (t : Step) (l : List Ev) :
    okCount t (Ev.sleep :: l) = okCount t l := by
  simp [okCount, List.countP_cons]

@[simp] lemma okCount_cons_retries (t : Step) (n : Nat) (l : List Ev) :
    okCount t (Ev.retriesLeft n :: l) = okCount t l := by
  simp [okCount, List.countP_cons]

@[simp] lemma okCount_cons_log (t : Step) (m : Msg) (l : List Ev) :
    okCount t (Ev.log m :: l) = okCount t l := by
  simp [okCount, List.countP_cons]

@[simp] lemma sleepCount_cons_call (u : Step) (b : Bool) (l : List Ev) :
    sleepCount (Ev.call u b :: l) = sleepCount l := by
  simp [sleepCount, List.countP_cons]

@[simp] lemma sleepCount_cons_sleep (l : List Ev) :
    sleepCount (Ev.sleep :: l) = sleepCount l + 1 := by
  simp [sleepCount, List.countP_cons]

@[simp] lemma sleepCount_cons_retries (n : Nat) (l : List Ev) :
    sleepCount (Ev.retriesLeft n :: l) = sleepCount l := by
  simp [sleepCount, List.countP_cons]

@[simp] lemma sleepCount_cons_log (m : Msg) (l : List Ev) :
    sleepCount (Ev.log m :: l) = sleepCount l := by
  simp [sleepCount, List.countP_cons]

@[simp] lemma callCount_map_log (t : Step) (msgs : List Msg) :
    callCount t (msgs.map Ev.log) = 0 := by
  induction msgs with
  | nil => rfl
  | cons m ms ih => simp [ih]

@[simp] lemma okCount_map_log (t : Step) (msgs : List Msg) :
    okCount t (msgs.map Ev.log) = 0 := by
  induction msgs with
  | nil => rfl
  | cons m ms ih => simp [ih]

@[simp] lemma sleepCount_map_log (msgs : List Msg) :
    sleepCount (msgs.map Ev.log) = 0 := by
  induction msgs with
  | nil => rfl
  | cons m ms ih => simp [ih]

lemma okCount_le_callCount (t : Step) (l : List Ev) : okCount t l ≤ callCount t l := by
  induction l with
  | nil => simp
  | cons e l ih =>
    cases e with
    | call u b =>
      cases b <;> by_cases h : u = t <;> simp [h] <;> omega
    | sleep => simpa using ih
    | retriesLeft n => simpa using ih
    | log m => simpa using ih

/-! ## afterOkNoCall lemmas -/

@[simp] lemma afterOk_nil (t : Step) : afterOkNoCall t [] = true := rfl

lemma afterOk_of_callCount_zero (t : Step) (l : List Ev)
    (h : callCount t l = 0) : afterOkNoCall t l = true := by
  induction l with
  | nil => rfl
  | cons e l ih =>
    cases e with
    | call u b =>
      have hu : ¬u = t := by
        intro hut; simp [hut] at h
      cases b with
      | true => simpa [afterOkNoCall, hu] using ih (by simp [hu] at h; omega)
      | false => simpa [afterOkNoCall] using ih (by simp [hu] at h; omega)
    | sleep => simpa [afterOkNoCall] using ih (by simpa using h)
    | retriesLeft n => simpa [afterOkNoCall] using ih (by simpa using h)
    | log m => simpa [afterOkNoCall] using ih (by simpa using h)

lemma afterOk_of_le_one (t : Step) (l : List Ev)
    (h : callCount t l ≤ 1) : afterOkNoCall t l = true := by
  induction l with
  | nil => rfl
  | cons e l ih =>
    cases e with
    | call u b =>
      by_cases hu : u = t
      · have h0 : callCount t l = 0 := by simp [hu] at h; omega
        cases b with
        | true => simp [afterOkNoCall, hu, h0]
        | false => simpa [afterOkNoCall] using afterOk_of_callCount_zero t l h0
      · cases b with
        | true => simpa [afterOkNoCall, hu] using ih (by simp [hu] at h; omega)
        | false => simpa [afterOkNoCall] using ih (by simp [hu] at h; omega)
    | sleep => simpa [afterOkNoCall] using ih (by simpa using h)
    | retriesLeft n => simpa [afterOkNoCall] using ih (by simpa using h)
    | log m => simpa [afterOkNoCall] using ih (by simpa using h)

lemma afterOk_append_left (t : Step) (a b : List Ev)
    (h : okCount t a = 0) : afterOkNoCall t (a ++ b) = afterOkNoCall t b := by
  induction a with
  | nil => simp
  | cons e a ih =>
    cases e with
    | call u bb =>
      cases bb with
      | true =>
        have hu : ¬u = t := by
          intro hut; subst hut; simp at h
        simpa [afterOkNoCall, hu] using ih (by simp at h; omega)
      | false => simpa [afterOkNoCall] using ih (by simp at h; omega)
    | sleep => simpa [afterOkNoCall] using ih (by simpa using h)
    | retriesLeft n => simpa [afterOkNoCall] using ih (by simpa using h)
    | log m => simpa [afterOkNoCall] using ih (by simpa using h)

lemma afterOk_append_right (t : Step) (a b : List Ev)
    (h : callCount t b = 0) : afterOkNoCall t (a ++ b) = afterOkNoCall t a := by
  induction a with
  | nil => simpa using afterOk_of_callCount_zero t b h
  | cons e a ih =>
    cases e with
    | call u bb =>
      by_cases hu : u = t
      · subst hu
        cases bb with
        | true => simp [afterOkNoCall, h]
        | false => simpa [afterOkNoCall] using ih
      · cases bb <;> simpa [afterOkNoCall, hu] using ih
    | sleep => simpa [afterOkNoCall] using ih
    | retriesLeft n => simpa [afterOkNoCall] using ih
    | log m => simpa [afterOkNoCall] using ih

/-! ## The memoization invariants -/

lemma properVal_truthy (v : Value) (h : properVal v = true) : truthy v = true := by
  cases v with
  | list l =>
    match l with
    | [] => exact h
    | [a] => exact h
    | [a, b] => simp [truthy]
    | a :: b :: c :: r => exact h
  | none => exact h
  | bool b => exact h
  | int n => exact h
  | str s => exact h
  | dict d => exact h

lemma mkStep_spec {σ : Type} (done : Step → σ → Bool) (d : SubstepDef σ)
    (hd : SubstepOK done d) (o : Oracle) (s : Sout σ) :
    ∃ Δ, (sOf (mkStep d o s)).evs = s.evs ++ Δ ∧
      sleepCount Δ = 0 ∧
      (∀ t, t ≠ d.mine → callCount t Δ = 0) ∧
      callCount d.mine Δ ≤ 1 ∧
      (done d.mine s.st = true → mkStep d o s = .nx s) ∧
      (∀ u, done u s.st = true → done u (sOf (mkStep d o s)).st = true) ∧
      (properOracle o → okCount d.mine Δ = 0 ∨ done d.mine (sOf (mkStep d o s)).st = true) := by
  by_cases hn : d.need s.st = true
  · have hdone : done d.mine s.st = false := by
      have h3 := hd.needDef s.st
      rw [h3] at hn
      simpa using hn
    cases ho : o s.k with
    | ok v =>
      cases hk : (d.onOk s.st v).kind with
      | knx =>
        have hres : mkStep d o s = .nx ⟨(d.onOk s.st v).st, s.k + 1,
            s.evs ++ Ev.call d.mine (d.onOk s.st v).okF ::
              (d.onOk s.st v).logs.map Ev.log⟩ := by
          simp [mkStep, hn, ho, hk]
        refine ⟨Ev.call d.mine (d.onOk s.st v).okF :: (d.onOk s.st v).logs.map Ev.log,
          ?_, ?_, ?_, ?_, ?_, ?_, ?_⟩
        · rw [hres]; rfl
        · simp
        · intro t ht; simp [Ne.symm ht]
        · simp
        · intro hc; rw [hc] at hdone; exact Bool.noConfusion hdone
        · intro u hu; rw [hres]; exact hd.mono s.st v u hn hu
        · intro hp
          rcases hd.okDone s.st v (hp s.k v ho) with hF | hD
          · left; rw [hF]; simp
          · right; rw [hres]; exact hD
      | kbr =>
        have hres : mkStep d o s = .br ⟨(d.onOk s.st v).st, s.k + 1,
            s.evs ++ Ev.call d.mine (d.onOk s.st v).okF ::
              (d.onOk s.st v).logs.map Ev.log⟩ := by
          simp [mkStep, hn, ho, hk]
        refine ⟨Ev.call d.mine (d.onOk s.st v).okF :: (d.onOk s.st v).logs.map Ev.log,
          ?_, ?_, ?_, ?_, ?_, ?_, ?_⟩
        · rw [hres]; rfl
        · simp
        · intro t ht; simp [Ne.symm ht]
        · simp
        · intro hc; rw [hc] at hdone; exact Bool.noConfusion hdone
        · intro u hu; rw [hres]; exact hd.mono s.st v u hn hu
        · intro hp
          rcases hd.okDone s.st v (hp s.k v ho) with hF | hD
          · left; rw [hF]; simp
          · right; rw [hres]; exact hD
    | exc e =>
      cases e with
      | ssl =>
        have hres : mkStep d o s =
            .br ⟨s.st, s.k + 1, s.evs ++ [Ev.call d.mine false, Ev.log .sslError]⟩ := by
          simp [mkStep, hn, ho, excRes]
        refine ⟨[Ev.call d.mine false, Ev.log .sslError], ?_, ?_, ?_, ?_, ?_, ?_, ?_⟩
        · rw [hres]; rfl
        · simp
        · intro t ht; simp [Ne.symm ht]
        · simp
        · intro hc; rw [hc] at hdone; exact Bool.noConfusion hdone
        · intro u hu; rw [hres]; exact hu
        · intro _; left; simp
      | transient =>
        have hres : mkStep d o s =
            .tr ⟨s.st, s.k + 1, s.evs ++ [Ev.call d.mine false, Ev.log .connError]⟩ := by
          simp [mkStep, hn, ho, excRes]
        refine ⟨[Ev.call d.mine false, Ev.log .connError], ?_, ?_, ?_, ?_, ?_, ?_, ?_⟩
        · rw [hres]; rfl
        · simp
        · intro t ht; simp [Ne.symm ht]
        · simp
        · intro hc; rw [hc] at hdone; exact Bool.noConfusion hdone
        · intro u hu; rw [hres]; exact hu
        · intro _; left; simp
      | other =>
        have hres : mkStep d o s =
            .br ⟨s.st, s.k + 1, s.evs ++ [Ev.call d.mine false, Ev.log .otherError]⟩ := by
          simp [mkStep, hn, ho, excRes]
        refine ⟨[Ev.call d.mine false, Ev.log .otherError], ?_, ?_, ?_, ?_, ?_, ?_, ?_⟩
        · rw [hres]; rfl
        · simp
        · intro t ht; simp [Ne.symm ht]
        · simp
        · intro hc; rw [hc] at hdone; exact Bool.noConfusion hdone
        · intro u hu; rw [hres]; exact hu
        · intro _; left; simp
  · have hres : mkStep d o s = .nx s := by
      simp [mkStep, hn]
    refine ⟨[], ?_, ?_, ?_, ?_, ?_, ?_, ?_⟩
    · rw [hres]; simp [sOf]
    · simp
    · intro t _; simp
    · simp
    · intro _; exact hres
    · intro u hu; rw [hres]; exact hu
    · intro _; left; simp

lemma runSubsteps_spec {σ : Type} (done : Step → σ → Bool) (o : Oracle) :
    ∀ (ds : List (SubstepDef σ)), (∀ d ∈ ds, SubstepOK done d) →
      (ds.map SubstepDef.mine).Nodup →
      ∀ s, ∃ Δ, (sOf (runSubsteps o ds s)).evs = s.evs ++ Δ ∧
        sleepCount Δ = 0 ∧
        (∀ t, t ∉ ds.map SubstepDef.mine → callCount t Δ = 0) ∧
        (∀ t, callCount t Δ ≤ 1) ∧
        (∀ t, done t s.st = true → callCount t Δ = 0) ∧
        (∀ u, done u s.st = true → done u (sOf (runSubsteps o ds s)).st = true) ∧
        (properOracle o → ∀ t, okCount t Δ = 0 ∨
          done t (sOf (runSubsteps o ds s)).st = true) := by
  intro ds
  induction ds with
  | nil =>
    intro _ _ s
    exact ⟨[], by simp [runSubsteps, sOf], by simp, fun t _ => by simp,
      fun t => by simp, fun t _ => by simp, fun u hu => by simpa [runSubsteps, sOf] using hu,
      fun _ t => Or.inl (by simp)⟩
  | cons d ds ih =>
    intro hall hnd s
    have hd : SubstepOK done d := hall d (by simp)
    have hall2 : ∀ e ∈ ds, SubstepOK done e := fun e he => hall e (by simp [he])
    have hnd0 : (d.mine :: ds.map SubstepDef.mine).Nodup := by simpa using hnd
    have hnd1 := List.nodup_cons.mp hnd0
    have hmem : d.mine ∉ ds.map SubstepDef.mine := hnd1.1
    have hnd2 : (ds.map SubstepDef.mine).Nodup := hnd1.2
    obtain ⟨Δ0, he0, hs0, hoth0, hle0, hskip0, hmono0, hok0⟩ := mkStep_spec done d hd o s
    cases hms : mkStep d o s with
    | br s1 =>
      have hrun : runSubsteps o (d :: ds) s = .br s1 := by simp [runSubsteps, hms]
      rw [hms] at he0 hmono0 hok0 hskip0
      simp only [sOf] at he0 hmono0 hok0
      refine ⟨Δ0, by rw [hrun]; exact he0, hs0, ?_, ?_, ?_, ?_, ?_⟩
      · intro t ht
        simp only [List.map_cons, List.mem_cons, not_or] at ht
        exact hoth0 t ht.1
      · intro t
        by_cases hteq : t = d.mine
        · exact hteq ▸ hle0
        · simp [hoth0 t hteq]
      · intro t hts
        by_cases hteq : t = d.mine
        · exact absurd (hskip0 (hteq ▸ hts)) (fun hc => R.noConfusion hc)
        · exact hoth0 t hteq
      · intro u hu; rw [hrun]; exact hmono0 u hu
      · intro hp t
        by_cases hteq : t = d.mine
        · subst hteq
          rcases hok0 hp with hz | hdn
          · exact Or.inl hz
          · right; rw [hrun]; exact hdn
        · left
          have h1 := okCount_le_callCount t Δ0
          have h2 := hoth0 t hteq
          omega
    | tr s1 =>
      have hrun : runSubsteps o (d :: ds) s = .tr s1 := by simp [runSubsteps, hms]
      rw [hms] at he0 hmono0 hok0 hskip0
      simp only [sOf] at he0 hmono0 hok0
      refine ⟨Δ0, by rw [hrun]; exact he0, hs0, ?_, ?_, ?_, ?_, ?_⟩
      · intro t ht
        simp only [List.map_cons, List.mem_cons, not_or] at ht
        exact hoth0 t ht.1
      · intro t
        by_cases hteq : t = d.mine
        · exact hteq ▸ hle0
        · simp [hoth0 t hteq]
      · intro t hts
        by_cases hteq : t = d.mine
        · exact absurd (hskip0 (hteq ▸ hts)) (fun hc => R.noConfusion hc)
        · exact hoth0 t hteq
      · intro u hu; rw [hrun]; exact hmono0 u hu
      · intro hp t
        by_cases hteq : t = d.mine
        · subst hteq
          rcases hok0 hp with hz | hdn
          · exact Or.inl hz
          · right; rw [hrun]; exact hdn
        · left
          have h1 := okCount_le_callCount t Δ0
          have h2 := hoth0 t hteq
          omega
    | nx s1 =>
      have hrun : runSubsteps o (d :: ds) s = runSubsteps o ds s1 := by
        simp [runSubsteps, hms]
      rw [hms] at he0 hmono0 hok0 hskip0
      simp only [sOf] at he0 hmono0 hok0
      obtain ⟨Δ1, he1, hs1, hoth1, hle1, hskip1, hmono1, hok1⟩ := ih hall2 hnd2 s1
      refine ⟨Δ0 ++ Δ1, ?_, ?_, ?_, ?_, ?_, ?_, ?_⟩
      · rw [hrun, he1, he0, List.append_assoc]
      · simp [hs0, hs1]
      · intro t ht
        simp only [List.map_cons, List.mem_cons, not_or] at ht
        simp [hoth0 t (fun hc => ht.1 hc), hoth1 t ht.2]
      · intro t
        by_cases hteq : t = d.mine
        · have h1 : callCount t Δ1 = 0 := hoth1 t (by rw [hteq]; exact hmem)
          simpa [h1] using hteq ▸ hle0
        · simp [hoth0 t hteq]
          exact hle1 t
      · intro t hts
        by_cases hteq : t = d.mine
        · have hz : (R.nx s1 : R σ) = .nx s := hskip0 (hteq ▸ hts)
          have hs1s : s1 = s := by injection hz
          have hΔ0 : Δ0 = [] := by
            rw [hs1s] at he0
            have hl := congrArg List.length he0
            simp at hl
            exact hl
          have h1 : callCount t Δ1 = 0 := hskip1 t (by rw [hs1s]; exact hts)
          simp [hΔ0, h1]
        · simp [hoth0 t hteq, hskip1 t (hmono0 t hts)]
      · intro u hu; rw [hrun]; exact hmono1 u (hmono0 u hu)
      · intro hp t
        by_cases hteq : t = d.mine
        · subst hteq
          rcases hok0 hp with hz | hdn
          · rcases hok1 hp d.mine with hz1 | hdn1
            · left; simp [hz, hz1]
            · right; rw [hrun]; exact hdn1
          · right; rw [hrun]; exact hmono1 _ hdn
        · have h0 : okCount t Δ0 = 0 := by
            have h1 := okCount_le_callCount t Δ0
            have h2 := hoth0 t hteq
            omega
          rcases hok1 hp t with hz1 | hdn1
          · left; simp [h0, hz1]
          · right; rw [hrun]; exact hdn1

lemma properVal_unpack2 (v a b : Value) (hu : unpack2 v = some (a, b))
    (hp : properVal v = true) : truthy a = true ∧ truthy b = true := by
  cases v with
  | list l =>
    match l with
    | [] => exact absurd hu (by simp [unpack2])
    | [x] => exact absurd hu (by simp [unpack2])
    | [x, y] =>
      simp only [unpack2, Option.some.injEq, Prod.mk.injEq] at hu
      obtain ⟨h1, h2⟩ := hu
      subst h1; subst h2
      simpa [properVal, Bool.and_eq_true] using hp
    | x :: y :: z :: r => exact absurd hu (by simp [unpack2])
  | none => exact absurd hu (by simp [unpack2])
  | bool b2 => exact absurd hu (by simp [unpack2])
  | int n => exact absurd hu (by simp [unpack2])
  | str s2 => exact absurd hu (by simp [unpack2])
  | dict l => exact absurd hu (by simp [unpack2])

lemma sessionDef_ok : SubstepOK doneA sessionDef := by
  refine ⟨?_, ?_, ?_⟩
  · intro st v u hneed hdone
    cases u <;> simp_all [sessionDef, doneA]
  · intro st v hv
    right
    simp [sessionDef, doneA, properVal_truthy v hv]
  · intro st; rfl

lemma nodeDef_ok : SubstepOK doneA nodeDef := by
  refine ⟨?_, ?_, ?_⟩
  · intro st v u hneed hdone
    cases u <;> simp_all [nodeDef, doneA]
  · intro st v hv
    right
    simp [nodeDef, doneA, properVal_truthy v hv]
  · intro st; rfl

lemma serviceDef_ok : SubstepOK doneA serviceDef := by
  refine ⟨?_, ?_, ?_⟩
  · intro st v u hneed hdone
    cases u <;> simp_all [serviceDef, doneA]
  · intro st v hv
    right
    simp [serviceDef, doneA, properVal_truthy v hv]
  · intro st; rfl

lemma verifyDef_ok : SubstepOK doneA verifyDef := by
  refine ⟨?_, ?_, ?_⟩
  · intro st v u hneed hdone
    cases hv : unpack2 v with
    | none => simpa [verifyDef, hv] using hdone
    | some p =>
      obtain ⟨cfg, nm⟩ := p
      by_cases hc : truthy cfg = true
      · cases u <;> simp_all [verifyDef, doneA, hv, hc]
      · cases u <;> simp_all [verifyDef, doneA, hv, hc]
  · intro st v hv
    cases hu : unpack2 v with
    | none => left; simp [verifyDef, hu]
    | some p =>
      obtain ⟨cfg, nm⟩ := p
      have hcfg := (properVal_unpack2 v cfg nm hu hv).1
      right
      simp [verifyDef, doneA, hu, hcfg]
  · intro st; rfl

lemma uploadDef_ok : SubstepOK doneA uploadDef := by
  refine ⟨?_, ?_, ?_⟩
  · intro st v u hneed hdone
    cases hv : unpack2 v with
    | none => simpa [uploadDef, hv] using hdone
    | some p =>
      obtain ⟨a, b⟩ := p
      by_cases hc : truthy a = true
      · cases u <;> simp_all [uploadDef, doneA, hv, hc]
      · cases u <;> simp_all [uploadDef, doneA, hv, hc]
  · intro st v hv
    cases hu : unpack2 v with
    | none => left; simp [uploadDef, hu]
    | some p =>
      obtain ⟨a, b⟩ := p
      have ha := (properVal_unpack2 v a b hu hv).1
      right
      simp [uploadDef, doneA, hu, ha]
  · intro st; rfl

lemma svcParamsDef_ok : SubstepOK doneB svcParamsDef := by
  refine ⟨?_, ?_, ?_⟩
  · intro st v u hneed hdone
    cases hv : unpack2 v with
    | none => simpa [svcParamsDef, hv] using hdone
    | some p =>
      obtain ⟨rp, wp⟩ := p
      cases u <;> simp_all [svcParamsDef, doneB, hv]
  · intro st v hv
    cases hu : unpack2 v with
    | none => left; simp [svcParamsDef, hu]
    | some p =>
      obtain ⟨rp, wp⟩ := p
      have hr := (properVal_unpack2 v rp wp hu hv).1
      right
      simp [svcParamsDef, doneB, hu, hr]
  · intro st; rfl

lemma nodeParamsDef_ok : SubstepOK doneB nodeParamsDef := by
  refine ⟨?_, ?_, ?_⟩
  · intro st v u hneed hdone
    cases u <;> simp_all [nodeParamsDef, doneB]
  · intro st v hv
    right
    simp [nodeParamsDef, doneB, properVal_truthy v hv]
  · intro st; rfl

lemma startOtaDef_ok : SubstepOK doneB startOtaDef := by
  refine ⟨?_, ?_, ?_⟩
  · intro st v u hneed hdone
    by_cases hc : truthy v = true
    · cases u <;> simp_all [startOtaDef, doneB, hc]
    · cases u <;> simp_all [startOtaDef, doneB, hc]
  · intro st v hv
    have ht := properVal_truthy v hv
    right
    simp [startOtaDef, doneB, ht]
  · intro st; rfl

lemma checkOtaDef_ok : SubstepOK doneB checkOtaDef := by
  refine ⟨?_, ?_, ?_⟩
  · intro st v u hneed hdone
    cases u <;> simp_all [checkOtaDef, doneB]
  · intro st v hv
    right
    simp [checkOtaDef, doneB, properVal_truthy v hv]
  · intro st; rfl

lemma stepsA_nodup : (stepsA.map SubstepDef.mine).Nodup := by
  simp [stepsA, sessionDef, nodeDef, serviceDef, verifyDef, uploadDef]

lemma stepsB_nodup : (stepsB.map SubstepDef.mine).Nodup := by
  simp [stepsB, svcParamsDef, nodeParamsDef, startOtaDef, checkOtaDef]

lemma stepsA_ok : ∀ d ∈ stepsA, SubstepOK doneA d := by
  intro d hd
  simp only [stepsA, List.mem_cons, List.not_mem_nil, or_false] at hd
  rcases hd with rfl | rfl | rfl | rfl | rfl
  · exact sessionDef_ok
  · exact nodeDef_ok
  · exact serviceDef_ok
  · exact verifyDef_ok
  · exact uploadDef_ok

lemma stepsB_ok : ∀ d ∈ stepsB, SubstepOK doneB d := by
  intro d hd
  simp only [stepsB, List.mem_cons, List.not_mem_nil, or_false] at hd
  rcases hd with rfl | rfl | rfl | rfl
  · exact svcParamsDef_ok
  · exact nodeParamsDef_ok
  · exact startOtaDef_ok
  · exact checkOtaDef_ok

lemma iterA_spec (o : Oracle) : IterSpec doneA (iterA o) (properOracle o) := by
  intro s t
  obtain ⟨Δ, he, hsl, _, hle, hskip, hmono, hok⟩ :=
    runSubsteps_spec doneA o stepsA stepsA_ok stepsA_nodup s
  exact ⟨Δ, he, hsl, hle t, hskip t, hmono, fun hp => hok hp t⟩

lemma doneB_paramUrl (t : Step) (st : StB) (u : Value) :
    doneB t { st with paramUrl := u } = doneB t st := by
  cases t <;> rfl

lemma iterB_spec (o : Oracle) : IterSpec doneB (iterB o) (properOracle o) := by
  intro s t
  cases hc : pyContains s.st.response "image_url" with
  | none =>
    refine ⟨[Ev.log .otherError], by simp [iterB, hc, sOf], by simp, by simp,
      fun _ => by simp, ?_, fun _ => Or.inl (by simp)⟩
    intro u hu
    simpa [iterB, hc, sOf] using hu
  | some b =>
    cases b with
    | false =>
      refine ⟨[], by simp [iterB, hc, sOf], by simp, by simp,
        fun _ => by simp, ?_, fun _ => Or.inl (by simp)⟩
      intro u hu
      simpa [iterB, hc, sOf] using hu
    | true =>
      cases hx : pyIndex s.st.response "image_url" with
      | none =>
        refine ⟨[Ev.log .otherError], by simp [iterB, hc, hx, sOf], by simp, by simp,
          fun _ => by simp, ?_, fun _ => Or.inl (by simp)⟩
        intro u hu
        simpa [iterB, hc, hx, sOf] using hu
      | some u =>
        have hrun : iterB o s =
            runSubsteps o stepsB ⟨{ s.st with paramUrl := u }, s.k, s.evs⟩ := by
          simp [iterB, hc, hx]
        obtain ⟨Δ, he, hsl, _, hle, hskip, hmono, hok⟩ :=
          runSubsteps_spec doneB o stepsB stepsB_ok stepsB_nodup
            ⟨{ s.st with paramUrl := u }, s.k, s.evs⟩
        refine ⟨Δ, ?_, hsl, hle t, ?_, ?_, ?_⟩
        · rw [hrun]; exact he
        · intro hts
          exact hskip t (by simpa [doneB_paramUrl] using hts)
        · intro w hw
          rw [hrun]
          exact hmono w (by simpa [doneB_paramUrl] using hw)
        · intro hp
          rcases hok hp t with h | h
          · exact Or.inl h
          · right; rw [hrun]; exact h

lemma sleepbit_callCount (t : Step) (r : Nat) :
    callCount t (Ev.sleep :: (if 0 < r then [Ev.retriesLeft r] else [])) = 0 := by
  split <;> simp

lemma retbit_callCount (t : Step) (r : Nat) :
    callCount t (if 0 < r then [Ev.retriesLeft r] else []) = 0 := by
  split <;> simp

lemma sleepbit_okCount (t : Step) (r : Nat) :
    okCount t (Ev.sleep :: (if 0 < r then [Ev.retriesLeft r] else [])) = 0 := by
  split <;> simp

/-- Loop-level memoization guarantees: the retry loop only appends events,
never invokes a sub-step whose result is cached at entry, preserves caches,
and (for proper oracles) never re-invokes a sub-step after its successful
invocation. -/
lemma runLoop_spec {σ : Type} (done : Step → σ → Bool) (f : Sout σ → R σ) (P : Prop)
    (hf : IterSpec done f P) :
    ∀ (r : Nat) (s : Sout σ) (t : Step), ∃ Δ,
      (runLoop f r s).evs = s.evs ++ Δ ∧
      (done t s.st = true → callCount t Δ = 0) ∧
      (∀ u, done u s.st = true → done u (runLoop f r s).st = true) ∧
      (P → afterOkNoCall t Δ = true) := by
  intro r
  induction r with
  | zero =>
    intro s t
    exact ⟨[], by simp [runLoop], fun _ => by simp,
      fun u hu => by simpa [runLoop] using hu, fun _ => by simp⟩
  | succ r ih =>
    intro s t
    obtain ⟨Δ0, he0, hsl0, hle0, hskip0, hmono0, hok0⟩ := hf s t
    cases hit : f s with
    | br s1 =>
      have hrun : runLoop f (r + 1) s = s1 := by simp [runLoop, hit]
      rw [hit] at he0 hmono0 hok0
      simp only [sOf] at he0 hmono0 hok0
      refine ⟨Δ0, by rw [hrun]; exact he0, hskip0, ?_, ?_⟩
      · intro u hu; rw [hrun]; exact hmono0 u hu
      · intro _; exact afterOk_of_le_one t Δ0 hle0
    | nx s1 =>
      have hrun : runLoop f (r + 1) s = runLoop f r
          { s1 with evs := s1.evs ++ Ev.sleep ::
            (if 0 < r then [Ev.retriesLeft r] else []) } := by
        simp [runLoop, hit]
      rw [hit] at he0 hmono0 hok0
      simp only [sOf] at he0 hmono0 hok0
      obtain ⟨Δ1, he1, hskip1, hmono1, hao1⟩ := ih
        { s1 with evs := s1.evs ++ Ev.sleep ::
          (if 0 < r then [Ev.retriesLeft r] else []) } t
      refine ⟨Δ0 ++ ((Ev.sleep :: (if 0 < r then [Ev.retriesLeft r] else [])) ++ Δ1),
        ?_, ?_, ?_, ?_⟩
      · rw [hrun, he1]
        simp [he0, List.append_assoc]
      · intro hts
        have h0 := hskip0 hts
        have h1 : callCount t Δ1 = 0 := hskip1 (hmono0 t hts)
        simp [h0, h1, retbit_callCount]
      · intro u hu
        rw [hrun]
        exact hmono1 u (hmono0 u hu)
      · intro hp
        rcases hok0 hp with hz | hdn
        · rw [afterOk_append_left t Δ0 _ hz,
            afterOk_append_left t _ Δ1 (sleepbit_okCount t r)]
          exact hao1 hp
        · have h1 : callCount t Δ1 = 0 := hskip1 hdn
          have hz2 : callCount t
              ((Ev.sleep :: (if 0 < r then [Ev.retriesLeft r] else [])) ++ Δ1) = 0 := by
            simp [retbit_callCount, h1]
          rw [afterOk_append_right t Δ0 _ hz2]
          exact afterOk_of_le_one t Δ0 hle0
    | tr s1 =>
      have hrun : runLoop f (r + 1) s = runLoop f r
          { s1 with evs := s1.evs ++ Ev.sleep ::
            (if 0 < r then [Ev.retriesLeft r] else []) } := by
        simp [runLoop, hit]
      rw [hit] at he0 hmono0 hok0
      simp only [sOf] at he0 hmono0 hok0
      obtain ⟨Δ1, he1, hskip1, hmono1, hao1⟩ := ih
        { s1 with evs := s1.evs ++ Ev.sleep ::
          (if 0 < r then [Ev.retriesLeft r] else []) } t
      refine ⟨Δ0 ++ ((Ev.sleep :: (if 0 < r then [Ev.retriesLeft r] else [])) ++ Δ1),
        ?_, ?_, ?_, ?_⟩
      · rw [hrun, he1]
        simp [he0, List.append_assoc]
      · intro hts
        have h0 := hskip0 hts
        have h1 : callCount t Δ1 = 0 := hskip1 (hmono0 t hts)
        simp [h0, h1, retbit_callCount]
      · intro u hu
        rw [hrun]
        exact hmono1 u (hmono0 u hu)
      · intro hp
        rcases hok0 hp with hz | hdn
        · rw [afterOk_append_left t Δ0 _ hz,
            afterOk_append_left t _ Δ1 (sleepbit_okCount t r)]
          exact hao1 hp
        · have h1 : callCount t Δ1 = 0 := hskip1 hdn
          have hz2 : callCount t
              ((Ev.sleep :: (if 0 < r then [Ev.retriesLeft r] else [])) ++ Δ1) = 0 := by
            simp [retbit_callCount, h1]
          rw [afterOk_append_right t Δ0 _ hz2]
          exact afterOk_of_le_one t Δ0 hle0

lemma afterOk_glue (t : Step) (a b : List Ev)
    (ha : afterOkNoCall t a = true) (hb : afterOkNoCall t b = true)
    (hz : okCount t a = 0 ∨ callCount t b = 0) :
    afterOkNoCall t (a ++ b) = true := by
  rcases hz with h | h
  · rw [afterOk_append_left t a b h]; exact hb
  · rw [afterOk_append_right t a b h]; exact ha

lemma afterOk_cons_call_ne (t u : Step) (b : Bool) (l : List Ev) (h : u ≠ t) :
    afterOkNoCall t (Ev.call u b :: l) = afterOkNoCall t l := by
  cases b <;> simp [afterOkNoCall, h]

lemma afterOk_cons_call_self_true (t : Step) (l : List Ev) (h : callCount t l = 0) :
    afterOkNoCall t (Ev.call t true :: l) = true := by
  simp [afterOkNoCall, h]

/-- Every sub-step is cached-out in at least one of the two phases: phase A
never invokes phase B sub-steps and conversely. -/
lemma phaseSplit (t : Step) (x : Value) :
    doneA t initA = true ∨ doneB t (initB x) = true := by
  cases t <;> simp [doneA, doneB, initA, initB, truthy]

lemma oracleAt_proper (l : List CallRes) (h : ∀ x ∈ l, properRes x = true) :
    ∀ n v, oracleAt l n = .ok v → properVal v = true := by
  induction l with
  | nil => intro n v hn; simp [oracleAt] at hn
  | cons x xs ih =>
    intro n v hn
    cases n with
    | zero =>
      have hx := h x (by simp)
      rw [show oracleAt (x :: xs) 0 = x from rfl] at hn
      rw [hn] at hx
      simpa [properRes] using hx
    | succ m => exact ih (fun y hy => h y (by simp [hy])) m v hn

lemma properOracle_oracleOf (l : List CallRes) (h : l.all properRes = true) :
    properOracle (oracleOf l) :=
  fun n v hn => oracleAt_proper l (List.all_eq_true.mp h) n v hn

/-- The phase A loop's trace extends the single file-read event; cached
(including non-phase-A) sub-steps are never invoked; no sub-step is
re-invoked after a successful invocation when the oracle is proper. -/
lemma loopAResult_spec (o : Oracle) (t : Step) :
    ∃ ΔA, (loopAResult o).evs = Ev.call .readFile true :: ΔA ∧
      (doneA t initA = true → callCount t ΔA = 0) ∧
      (∀ u, doneA u initA = true → doneA u (loopAResult o).st = true) ∧
      (properOracle o → afterOkNoCall t ΔA = true) := by
  obtain ⟨Δ, h1, h2, h3, h4⟩ := runLoop_spec doneA (iterA o) (properOracle o) (iterA_spec o)
    MAX_HTTP_CONNECTION_RETRIES ⟨initA, 1, [Ev.call .readFile true]⟩ t
  exact ⟨Δ, by simpa [loopAResult] using h1, h2, h3, h4⟩

/-- Same guarantees for the phase B loop, relative to the phase A result it
starts from. -/
lemma loopBResult_spec (o : Oracle) (sA : Sout StA) (t : Step) :
    ∃ ΔB, (loopBResult o sA).evs = sA.evs ++ ([Ev.log .uploadReqSuccess] ++ ΔB) ∧
      (doneB t (initB sA.st.response) = true → callCount t ΔB = 0) ∧
      (properOracle o → afterOkNoCall t ΔB = true) := by
  obtain ⟨Δ, h1, h2, h3, h4⟩ := runLoop_spec doneB (iterB o) (properOracle o) (iterB_spec o)
    MAX_HTTP_CONNECTION_RETRIES
    ⟨initB sA.st.response, sA.k, sA.evs ++ [Ev.log .uploadReqSuccess]⟩ t
  exact ⟨Δ, by simpa [loopBResult, List.append_assoc] using h1, h2, h4⟩

lemma loopA_all_transient (o : Oracle) (r : Nat) :
    ∀ (s : Sout StA), (∀ n, s.k ≤ n → o n = .exc .transient) →
    truthy s.st.currSession = false →
    runLoop (iterA o) r s = ⟨s.st, s.k + r, s.evs ++ transPat .sessionNew r⟩ := by
  induction r with
  | zero =>
    intro s ho hs
    simp [runLoop, transPat]
  | succ r ih =>
    intro s ho hs
    have hiter : iterA o s = .tr ⟨s.st, s.k + 1,
        s.evs ++ [Ev.call .sessionNew false, Ev.log .connError]⟩ := by
      simp [iterA, runSubsteps, stepsA, mkStep, sessionDef, hs, ho s.k (le_refl _), excRes]
    have hstep : runLoop (iterA o) (r + 1) s = runLoop (iterA o) r
        ⟨s.st, s.k + 1, (s.evs ++ [Ev.call .sessionNew false, Ev.log .connError]) ++
          Ev.sleep :: (if 0 < r then [Ev.retriesLeft r] else [])⟩ := by
      simp [runLoop, hiter]
    rw [hstep, ih ⟨s.st, s.k + 1,
        (s.evs ++ [Ev.call .sessionNew false, Ev.log .connError]) ++
          Ev.sleep :: (if 0 < r then [Ev.retriesLeft r] else [])⟩
      (fun n hn => ho n (Nat.le_of_succ_le hn)) hs]
    simp [transPat, List.append_assoc]
    omega

lemma loopB_all_transient (o : Oracle) (r : Nat) :
    ∀ (s : Sout StB) (u : Value),
    pyContains s.st.response "image_url" = some true →
    pyIndex s.st.response "image_url" = some u →
    truthy s.st.readParams = false → truthy s.st.writeParams = false →
    (∀ n, s.k ≤ n → o n = .exc .transient) →
    runLoop (iterB o) (r + 1) s =
      ⟨{ s.st with paramUrl := u }, s.k + (r + 1),
        s.evs ++ transPat .getServiceParams (r + 1)⟩ := by
  induction r with
  | zero =>
    intro s u hc hx hr hw ho
    have hiter : iterB o s = .tr ⟨{ s.st with paramUrl := u }, s.k + 1,
        s.evs ++ [Ev.call .getServiceParams false, Ev.log .connError]⟩ := by
      simp [iterB, hc, hx, runSubsteps, stepsB, mkStep, svcParamsDef, hr, hw,
        ho s.k (le_refl _), excRes]
    have hstep : runLoop (iterB o) 1 s = ⟨{ s.st with paramUrl := u }, s.k + 1,
        (s.evs ++ [Ev.call .getServiceParams false, Ev.log .connError]) ++
          [Ev.sleep]⟩ := by
      simp [runLoop, hiter]
    rw [hstep]
    simp [transPat, List.append_assoc]
  | succ r ih =>
    intro s u hc hx hr hw ho
    have hiter : iterB o s = .tr ⟨{ s.st with paramUrl := u }, s.k + 1,
        s.evs ++ [Ev.call .getServiceParams false, Ev.log .connError]⟩ := by
      simp [iterB, hc, hx, runSubsteps, stepsB, mkStep, svcParamsDef, hr, hw,
        ho s.k (le_refl _), excRes]
    have hstep : runLoop (iterB o) (r + 2) s = runLoop (iterB o) (r + 1)
        ⟨{ s.st with paramUrl := u }, s.k + 1,
          (s.evs ++ [Ev.call .getServiceParams false, Ev.log .connError]) ++
            Ev.sleep :: [Ev.retriesLeft (r + 1)]⟩ := by
      simp [runLoop, hiter]
    rw [hstep, ih ⟨{ s.st with paramUrl := u }, s.k + 1,
        (s.evs ++ [Ev.call .getServiceParams false, Ev.log .connError]) ++
          Ev.sleep :: [Ev.retriesLeft (r + 1)]⟩ u hc hx hr hw
      (fun n hn => ho n (Nat.le_of_succ_le hn))]
    simp [transPat, List.append_assoc]
    omega

lemma loopB_no_calls (o : Oracle) (r : Nat) :
    ∀ (s : Sout StB), pyContains s.st.response "image_url" ≠ some true →
    ∀ t, callCount t (runLoop (iterB o) r s).evs = callCount t s.evs := by
  induction r with
  | zero => intro s h t; simp [runLoop]
  | succ r ih =>
    intro s h t
    cases hc : pyContains s.st.response "image_url" with
    | none =>
      have hiter : iterB o s = .br ⟨s.st, s.k, s.evs ++ [Ev.log .otherError]⟩ := by
        simp [iterB, hc]
      simp [runLoop, hiter]
    | some b =>
      cases b with
      | true => exact absurd hc h
      | false =>
        have hiter : iterB o s = .nx s := by simp [iterB, hc]
        have hstep : runLoop (iterB o) (r + 1) s = runLoop (iterB o) r
            ⟨s.st, s.k, s.evs ++ Ev.sleep ::
              (if 0 < r then [Ev.retriesLeft r] else [])⟩ := by
          simp [runLoop, hiter]
        rw [hstep, ih ⟨s.st, s.k, s.evs ++ Ev.sleep ::
            (if 0 < r then [Ev.retriesLeft r] else [])⟩ (by simpa using h) t]
        simp [retbit_callCount]

lemma findSep_decomp (sep : List Char) (hsep : sep ≠ []) :
    ∀ (l b a : List Char), findSep sep l = some (b, a) → l = b ++ sep ++ a := by
  intro l
  induction l with
  | nil =>
    intro b a h
    simp [findSep, List.isPrefixOf_iff_prefix, hsep] at h
  | cons c cs ih =>
    intro b a h
    by_cases hp : sep.isPrefixOf (c :: cs) = true
    · rw [findSep, if_pos hp] at h
      obtain ⟨hb, ha⟩ := Prod.mk.injEq .. ▸ (Option.some.injEq .. ▸ h)
      obtain ⟨t, htl⟩ := List.isPrefixOf_iff_prefix.mp hp
      subst hb
      have hdrop : (c :: cs).drop sep.length = t := by
        rw [← htl]
        exact List.drop_left sep t
      rw [← ha, hdrop, ← htl]
      simp
    · rw [findSep, if_neg hp] at h
      cases hf : findSep sep cs with
      | none => rw [hf] at h; simp at h
      | some p =>
        obtain ⟨b2, a2⟩ := p
        rw [hf] at h
        simp at h
        obtain ⟨hb, ha⟩ := h
        rw [← hb, ← ha]
        simpa using ih b2 a2 hf

lemma findSep_none_beforeFirst (sep : List Char) :
    ∀ l, findSep sep l = Option.none → beforeFirst sep l = l := by
  intro l
  induction l with
  | nil => intro _; rfl
  | cons c cs ih =>
    intro h
    by_cases hp : sep.isPrefixOf (c :: cs) = true
    · rw [findSep, if_pos hp] at h; simp at h
    · rw [findSep, if_neg hp] at h
      rw [beforeFirst, if_neg hp]
      cases hf : findSep sep cs with
      | none => rw [ih hf]
      | some p => rw [hf] at h; simp at h

lemma findSep_some_beforeFirst (sep : List Char) :
    ∀ l b a, findSep sep l = some (b, a) → beforeFirst sep l = b := by
  intro l
  induction l with
  | nil =>
    intro b a h
    rw [findSep] at h
    by_cases hp : sep.isPrefixOf ([] : List Char) = true
    · rw [if_pos hp] at h
      simp at h
      simp [beforeFirst, ← h.1]
    · rw [if_neg hp] at h; simp at h
  | cons c cs ih =>
    intro b a h
    by_cases hp : sep.isPrefixOf (c :: cs) = true
    · rw [findSep, if_pos hp] at h
      simp at h
      simp [beforeFirst, hp, ← h.1]
    · rw [findSep, if_neg hp] at h
      cases hf : findSep sep cs with
      | none => rw [hf] at h; simp at h
      | some p =>
        obtain ⟨b2, a2⟩ := p
        rw [hf] at h
        simp at h
        rw [beforeFirst, if_neg hp, ih b2 a2 hf, h.1]

lemma pySplit_headD (sep l : List Char) :
    (pySplit sep l).headD [] = beforeFirst sep l := by
  unfold pySplit
  rw [pySplitF]
  cases hf : findSep sep l with
  | none => simp [findSep_none_beforeFirst sep l hf]
  | some p =>
    obtain ⟨b, a⟩ := p
    simp [findSep_some_beforeFirst sep l b a hf]

lemma pySplitF_ne_nil (sep : List Char) (fuel : Nat) (l : List Char) :
    pySplitF sep fuel l ≠ [] := by
  cases fuel with
  | zero => simp [pySplitF]
  | succ f =>
    rw [pySplitF]
    cases hf : findSep sep l with
    | none => simp
    | some p => obtain ⟨b, a⟩ := p; simp

lemma getLastD_default_irrel (l : List (List Char)) (h : l ≠ []) (d1 d2 : List Char) :
    l.getLastD d1 = l.getLastD d2 := by
  cases l with
  | nil => exact absurd rfl h
  | cons x xs => rw [List.getLastD_cons, List.getLastD_cons]

lemma findSep_single_none (c : Char) :
    ∀ l, findSep [c] l = Option.none → ∀ x ∈ l, x ≠ c := by
  intro l
  induction l with
  | nil => intro _ x hx; simp at hx
  | cons y ys ih =>
    intro h x hx
    by_cases hp : List.isPrefixOf [c] (y :: ys) = true
    · rw [findSep, if_pos hp] at h; simp at h
    · rw [findSep, if_neg hp] at h
      have hyc : y ≠ c := by
        intro hyc
        subst hyc
        exact hp (by simp [List.isPrefixOf])
      rcases List.mem_cons.mp hx with rfl | hmem
      · exact hyc
      · cases hf : findSep [c] ys with
        | none => exact ih hf x hmem
        | some p => rw [hf] at h; simp at h

lemma afterLastCh_of_not_mem (c : Char) (l : List Char) (h : ∀ x ∈ l, x ≠ c) :
    afterLastCh c l = l := by
  unfold afterLastCh
  rw [List.takeWhile_eq_self_iff.mpr]
  · exact List.reverse_reverse l
  · intro x hx
    simpa using h x (List.mem_reverse.mp hx)

lemma takeWhile_append_stop (p : Char → Bool) (c : Char) (hc : p c = false) :
    ∀ (xs ys : List Char), List.takeWhile p (xs ++ c :: ys) = List.takeWhile p xs := by
  intro xs ys
  induction xs with
  | nil => simp [List.takeWhile, hc]
  | cons a as ih =>
    cases ha : p a with
    | true => simp [List.takeWhile, ha, ih]
    | false => simp [List.takeWhile, ha]

lemma afterLastCh_append (c : Char) (b a : List Char) :
    afterLastCh c (b ++ c :: a) = afterLastCh c a := by
  unfold afterLastCh
  rw [show (b ++ c :: a).reverse = a.reverse ++ c :: b.reverse by simp]
  rw [takeWhile_append_stop _ c (by simp) a.reverse b.reverse]

lemma pySplitF_getLastD (c : Char) :
    ∀ (fuel : Nat) (l : List Char), l.length < fuel →
    (pySplitF [c] fuel l).getLastD [] = afterLastCh c l := by
  intro fuel
  induction fuel with
  | zero => intro l h; exact absurd h (by omega)
  | succ f ih =>
    intro l h
    rw [pySplitF]
    cases hf : findSep [c] l with
    | none =>
      simp [afterLastCh_of_not_mem c l (findSep_single_none c l hf)]
    | some p =>
      obtain ⟨b, a⟩ := p
      have hdec : l = b ++ [c] ++ a := findSep_decomp [c] (by simp) l b a hf
      have hlen : a.length < f := by
        have := congrArg List.length hdec
        simp at this
        omega
      rw [List.getLastD_cons,
        getLastD_default_irrel (pySplitF [c] f a) (pySplitF_ne_nil [c] f a) b [],
        ih a hlen]
      rw [show b ++ [c] ++ a = b ++ c :: a by simp] at hdec
      rw [hdec, afterLastCh_append]

lemma runPost_evs_ext (o : Oracle) (a n : String) (sA : Sout StA) :
    ∃ T, (runPost o a n sA).evs = sA.evs ++ T ∧ callCount .readFile T = 0 := by
  obtain ⟨ΔB, heB, hskipB, _⟩ := loopBResult_spec o sA .readFile
  by_cases h1 : isNone sA.st.nodeObject = true
  · exact ⟨[Ev.log .sessionInitFailed], by simp [runPost, h1], by simp⟩
  · by_cases h2 : truthy sA.st.status = true
    · cases hc : pyContains sA.st.status "success" with
      | none => exact ⟨[Ev.log .outerError], by simp [runPost, h1, h2, hc], by simp⟩
      | some b =>
        cases b with
        | false => exact ⟨[Ev.log .otaFailedA], by simp [runPost, h1, h2, hc], by simp⟩
        | true =>
          have hB0 : callCount Step.readFile ΔB = 0 := hskipB rfl
          by_cases h5 : eqNoneOrFalse (loopBResult o sA).st.otaStatus = true
          · refine ⟨([Ev.log .uploadReqSuccess] ++ ΔB) ++ [Ev.log .otaFailedB], ?_, ?_⟩
            · simp [runPost, h1, h2, hc, h5, heB]
            · simp [hB0]
          · refine ⟨[Ev.log .uploadReqSuccess] ++ ΔB, ?_, ?_⟩
            · simp [runPost, h1, h2, hc, h5, heB]
            · simp [hB0]
    · exact ⟨[Ev.log .otaFailedA], by simp [runPost, h1, h2], by simp⟩

lemma runPost_absPath (o : Oracle) (a n : String) (sA : Sout StA) :
    (runPost o a n sA).absPath = a := by
  unfold runPost
  split
  · rfl
  · split
    · rfl
    · split
      · rfl
      · rfl
      · dsimp only
        split <;> rfl

/-! ## The claims -/

/-- C1: idempotent memoization. During one invocation of `ota_upgrade`, for
any oracle whose successful results are cacheable (truthy — the sequence of
transient failures and successes is otherwise arbitrary and may stay within
or exhaust the budget), no sub-step — session, node handle, service object,
service descriptor, upload in phase A; property sets, node params, start
command, status poll in phase B; the file read — is ever invoked again after
an invocation that returned successfully: once a field is set it is never
recomputed. -/
theorem C1_idempotent_memoization (o : Oracle) (imgFilePath cwd : String)
    (hp : properOracle o) (t : Step) :
    afterOkNoCall t (ota_upgrade o imgFilePath cwd).evs = true := by
  cases h0 : o 0 with
  | exc e => simp [ota_upgrade, h0, afterOkNoCall]
  | ok v =>
    obtain ⟨ΔA, heA, hskipA, hmonoA, haoA⟩ := loopAResult_spec o t
    have hAok : afterOkNoCall t (loopAResult o).evs = true := by
      rw [heA]
      by_cases ht : t = Step.readFile
      · subst ht
        exact afterOk_cons_call_self_true _ ΔA (hskipA rfl)
      · rw [afterOk_cons_call_ne t _ true ΔA (fun hc => ht hc.symm)]
        exact haoA hp
    have hAcnt : t ≠ Step.readFile → doneA t initA = true →
        okCount t (loopAResult o).evs = 0 := by
      intro ht hd
      rw [heA]
      have h1 := hskipA hd
      have h2 := okCount_le_callCount t ΔA
      have h3 : ¬(Step.readFile = t ∧ True) := fun hc => ht hc.1.symm
      simp [h3]
      omega
    have key : ∀ a n, afterOkNoCall t (runPost o a n (loopAResult o)).evs = true := by
      intro a n
      obtain ⟨ΔB, heB, hskipB, haoB⟩ := loopBResult_spec o (loopAResult o) t
      generalize hg : loopAResult o = sA at hAok hAcnt heB hskipB
      by_cases h1 : isNone sA.st.nodeObject = true
      · have he : (runPost o a n sA).evs = sA.evs ++ [Ev.log .sessionInitFailed] := by
          simp [runPost, h1]
        rw [he]
        exact afterOk_glue t sA.evs _ hAok (by simp [afterOkNoCall]) (Or.inr (by simp))
      · by_cases h2 : truthy sA.st.status = true
        · cases hc : pyContains sA.st.status "success" with
          | none =>
            have he : (runPost o a n sA).evs = sA.evs ++ [Ev.log .outerError] := by
              simp [runPost, h1, h2, hc]
            rw [he]
            exact afterOk_glue t sA.evs _ hAok (by simp [afterOkNoCall]) (Or.inr (by simp))
          | some b =>
            cases b with
            | false =>
              have he : (runPost o a n sA).evs = sA.evs ++ [Ev.log .otaFailedA] := by
                simp [runPost, h1, h2, hc]
              rw [he]
              exact afterOk_glue t sA.evs _ hAok (by simp [afterOkNoCall]) (Or.inr (by simp))
            | true =>
              have hzdisj : okCount t sA.evs = 0 ∨
                  callCount t ([Ev.log .uploadReqSuccess] ++ ΔB) = 0 := by
                by_cases hdB : doneB t (initB sA.st.response) = true
                · right
                  have := hskipB hdB
                  simp [this]
                · left
                  have hdA : doneA t initA = true :=
                    (phaseSplit t sA.st.response).resolve_right hdB
                  have htrf : t ≠ Step.readFile := by
                    intro hrf; exact hdB (by rw [hrf]; rfl)
                  exact hAcnt htrf hdA
              have hBok : afterOkNoCall t ([Ev.log .uploadReqSuccess] ++ ΔB) = true := by
                rw [afterOk_append_left t _ ΔB (by simp)]
                exact haoB hp
              by_cases h5 : eqNoneOrFalse (loopBResult o sA).st.otaStatus = true
              · have he : (runPost o a n sA).evs =
                    (sA.evs ++ ([Ev.log .uploadReqSuccess] ++ ΔB)) ++ [Ev.log .otaFailedB] := by
                  simp [runPost, h1, h2, hc, h5, heB]
                rw [he]
                refine afterOk_glue t _ _ ?_ (by simp [afterOkNoCall]) (Or.inr (by simp))
                exact afterOk_glue t sA.evs _ hAok hBok hzdisj
              · have he : (runPost o a n sA).evs =
                    sA.evs ++ ([Ev.log .uploadReqSuccess] ++ ΔB) := by
                  simp [runPost, h1, h2, hc, h5, heB]
                rw [he]
                exact afterOk_glue t sA.evs _ hAok hBok hzdisj
        · have he : (runPost o a n sA).evs = sA.evs ++ [Ev.log .otaFailedA] := by
            simp [runPost, h1, h2]
          rw [he]
          exact afterOk_glue t sA.evs _ hAok (by simp [afterOkNoCall]) (Or.inr (by simp))
    simpa [ota_upgrade, h0] using
      key (absPathOf imgFilePath cwd) (imgName (absPathOf imgFilePath cwd))

/-- C1 witness: the guarantee at a concrete proper scenario (upload succeeds
on the third attempt, phase B start command after one transient failure). -/
theorem C1_idempotent_memoization_w :
    afterOkNoCall Step.upload (ota_upgrade (oracleOf c1Script) "fw.bin" "/cwd").evs = true :=
  C1_idempotent_memoization (oracleOf c1Script) "fw.bin" "/cwd"
    (properOracle_oracleOf c1Script (by decide)) Step.upload

/-- C2: budget exhaustion. When every sub-step attempt fails transiently,
each phase makes exactly `MAX_HTTP_CONNECTION_RETRIES` (= 5) attempts and
then fails, with exactly 4 backoff delays observed between attempts; the
full trace is the explicit `transPat` pattern (which also records the
trailing sleep the code performs after the final failed attempt). Phase A is
stated on the whole run (ending in the session-failure outcome), phase B on
its retry loop started from any entry state with an `image_url` and empty
caches. -/
theorem C2_budget_exhaustion :
    (∀ (o : Oracle) (p c : String) (v : Value),
      o 0 = .ok v → (∀ n, 1 ≤ n → o n = .exc .transient) →
      (ota_upgrade o p c).evs =
        [Ev.call .readFile true] ++ transPat .sessionNew MAX_HTTP_CONNECTION_RETRIES
          ++ [Ev.log .sessionInitFailed] ∧
      callCount .sessionNew (ota_upgrade o p c).evs = MAX_HTTP_CONNECTION_RETRIES ∧
      sleepCount (ota_upgrade o p c).evs = MAX_HTTP_CONNECTION_RETRIES ∧
      sleepCount (betweenCalls (ota_upgrade o p c).evs) = MAX_HTTP_CONNECTION_RETRIES - 1 ∧
      (ota_upgrade o p c).outcome = .sessionFailed) ∧
    (∀ (o : Oracle) (s : Sout StB) (u : Value),
      pyContains s.st.response "image_url" = some true →
      pyIndex s.st.response "image_url" = some u →
      truthy s.st.readParams = false → truthy s.st.writeParams = false →
      (∀ n, s.k ≤ n → o n = .exc .transient) →
      (runLoop (iterB o) MAX_HTTP_CONNECTION_RETRIES s).evs =
        s.evs ++ transPat .getServiceParams MAX_HTTP_CONNECTION_RETRIES ∧
      callCount .getServiceParams (transPat .getServiceParams MAX_HTTP_CONNECTION_RETRIES) =
        MAX_HTTP_CONNECTION_RETRIES ∧
      sleepCount (transPat .getServiceParams MAX_HTTP_CONNECTION_RETRIES) =
        MAX_HTTP_CONNECTION_RETRIES ∧
      sleepCount (betweenCalls (transPat .getServiceParams MAX_HTTP_CONNECTION_RETRIES)) =
        MAX_HTTP_CONNECTION_RETRIES - 1) := by
  constructor
  · intro o p c v h0 ht
    have hA : loopAResult o = ⟨initA, 1 + MAX_HTTP_CONNECTION_RETRIES,
        [Ev.call .readFile true] ++ transPat .sessionNew MAX_HTTP_CONNECTION_RETRIES⟩ :=
      loopA_all_transient o MAX_HTTP_CONNECTION_RETRIES
        ⟨initA, 1, [Ev.call .readFile true]⟩ (fun n hn => ht n hn) rfl
    have hrun : ota_upgrade o p c =
        runPost o (absPathOf p c) (imgName (absPathOf p c)) (loopAResult o) := by
      simp [ota_upgrade, h0]
    have hres : ota_upgrade o p c = ⟨absPathOf p c, imgName (absPathOf p c), initA,
        initB initA.response,
        ([Ev.call .readFile true] ++ transPat .sessionNew MAX_HTTP_CONNECTION_RETRIES)
          ++ [Ev.log .sessionInitFailed], .sessionFailed⟩ := by
      rw [hrun, hA]
      simp [runPost, isNone, initA]
    have hevs : (ota_upgrade o p c).evs =
        [Ev.call .readFile true] ++ transPat .sessionNew MAX_HTTP_CONNECTION_RETRIES
          ++ [Ev.log .sessionInitFailed] := by
      rw [hres]
    refine ⟨hevs, by rw [hevs]; decide, by rw [hevs]; decide, by rw [hevs]; decide,
      by rw [hres]⟩
  · intro o s u hc hx hr hw ho
    have hB := loopB_all_transient o 4 s u hc hx hr hw ho
    refine ⟨?_, by decide, by decide, by decide⟩
    rw [show MAX_HTTP_CONNECTION_RETRIES = 4 + 1 from rfl, hB]

/-- C2 witness: the budget-exhaustion trace at the all-transient oracle and
at a concrete phase B entry state. -/
theorem C2_budget_exhaustion_w :
    ((ota_upgrade oC2 "fw.bin" "/cwd").evs =
      [Ev.call .readFile true] ++ transPat .sessionNew MAX_HTTP_CONNECTION_RETRIES
        ++ [Ev.log .sessionInitFailed] ∧
     callCount .sessionNew (ota_upgrade oC2 "fw.bin" "/cwd").evs =
       MAX_HTTP_CONNECTION_RETRIES ∧
     sleepCount (ota_upgrade oC2 "fw.bin" "/cwd").evs = MAX_HTTP_CONNECTION_RETRIES ∧
     sleepCount (betweenCalls (ota_upgrade oC2 "fw.bin" "/cwd").evs) =
       MAX_HTTP_CONNECTION_RETRIES - 1 ∧
     (ota_upgrade oC2 "fw.bin" "/cwd").outcome = .sessionFailed) ∧
    ((runLoop (iterB oTransient) MAX_HTTP_CONNECTION_RETRIES c2StateB).evs =
      c2StateB.evs ++ transPat .getServiceParams MAX_HTTP_CONNECTION_RETRIES ∧
     callCount .getServiceParams (transPat .getServiceParams MAX_HTTP_CONNECTION_RETRIES) =
       MAX_HTTP_CONNECTION_RETRIES ∧
     sleepCount (transPat .getServiceParams MAX_HTTP_CONNECTION_RETRIES) =
       MAX_HTTP_CONNECTION_RETRIES ∧
     sleepCount (betweenCalls (transPat .getServiceParams MAX_HTTP_CONNECTION_RETRIES)) =
       MAX_HTTP_CONNECTION_RETRIES - 1) :=
  ⟨C2_budget_exhaustion.1 oC2 "fw.bin" "/cwd" (.str "bytes") rfl
      (fun n hn => by
        have hz : ¬n = 0 := by omega
        simp [oC2, hz]),
   C2_budget_exhaustion.2 oTransient c2StateB (.str "u") (by decide) rfl
      rfl rfl (fun n _ => rfl)⟩

/-- C3: fatal short-circuit. A falsy service config returned by discovery
terminates the phase A loop at once — the loop result is independent of the
remaining budget, no sleep is added, and the upload is never attempted; a
falsy result of the start-OTA command likewise terminates the phase B loop
with no sleep and no status poll. -/
theorem C3_fatal_short_circuit :
    (∀ (o : Oracle) (s : Sout StA) (r : Nat) (cfg nm : Value),
      truthy s.st.currSession = true → truthy s.st.nodeObject = true →
      truthy s.st.serviceObj = true →
      truthy s.st.serviceConfig = false → truthy s.st.serviceName = false →
      o s.k = .ok (.list [cfg, nm]) → truthy cfg = false →
      runLoop (iterA o) (r + 1) s =
        ⟨{ s.st with serviceConfig := cfg, serviceName := nm }, s.k + 1,
          s.evs ++ [Ev.call .verifyService true, Ev.log .otaNotFound]⟩ ∧
      sleepCount (runLoop (iterA o) (r + 1) s).evs = sleepCount s.evs ∧
      callCount .upload (runLoop (iterA o) (r + 1) s).evs = callCount .upload s.evs) ∧
    (∀ (o : Oracle) (s : Sout StB) (r : Nat) (u v : Value),
      pyContains s.st.response "image_url" = some true →
      pyIndex s.st.response "image_url" = some u →
      truthy s.st.readParams = true →
      truthy s.st.nodeParams = true →
      truthy s.st.otaStartStatus = false →
      o s.k = .ok v → truthy v = false →
      runLoop (iterB o) (r + 1) s =
        ⟨{ s.st with paramUrl := u, otaStartStatus := v }, s.k + 1,
          s.evs ++ [Ev.call .startOta true, Ev.log .startOtaFailed]⟩ ∧
      sleepCount (runLoop (iterB o) (r + 1) s).evs = sleepCount s.evs ∧
      callCount .checkOta (runLoop (iterB o) (r + 1) s).evs =
        callCount .checkOta s.evs) := by
  constructor
  · intro o s r cfg nm h1 h2 h3 h4 h5 ho hcfg
    have hiter : iterA o s = .br ⟨{ s.st with serviceConfig := cfg, serviceName := nm },
        s.k + 1, s.evs ++ [Ev.call .verifyService true, Ev.log .otaNotFound]⟩ := by
      simp [iterA, runSubsteps, stepsA, mkStep, sessionDef, nodeDef, serviceDef, verifyDef,
        h1, h2, h3, h4, h5, ho, unpack2, hcfg]
    have he : runLoop (iterA o) (r + 1) s =
        ⟨{ s.st with serviceConfig := cfg, serviceName := nm }, s.k + 1,
          s.evs ++ [Ev.call .verifyService true, Ev.log .otaNotFound]⟩ := by
      simp [runLoop, hiter]
    exact ⟨he, by rw [he]; simp, by rw [he]; simp⟩
  · intro o s r u v hc hx hrp hnp hst ho hv
    have hiter : iterB o s = .br ⟨{ s.st with paramUrl := u, otaStartStatus := v },
        s.k + 1, s.evs ++ [Ev.call .startOta true, Ev.log .startOtaFailed]⟩ := by
      simp [iterB, hc, hx, runSubsteps, stepsB, mkStep, svcParamsDef, nodeParamsDef,
        startOtaDef, hrp, hnp, hst, ho, hv]
    have he : runLoop (iterB o) (r + 1) s =
        ⟨{ s.st with paramUrl := u, otaStartStatus := v }, s.k + 1,
          s.evs ++ [Ev.call .startOta true, Ev.log .startOtaFailed]⟩ := by
      simp [runLoop, hiter]
    exact ⟨he, by rw [he]; simp, by rw [he]; simp⟩

/-- C3 witness: both fatal exits at concrete states and oracles. -/
theorem C3_fatal_short_circuit_w :
    runLoop (iterA oNotFound) (3 + 1) c3StateA =
      ⟨{ c3StateA.st with serviceConfig := Value.none, serviceName := .str "ota" },
        c3StateA.k + 1,
        c3StateA.evs ++ [Ev.call .verifyService true, Ev.log .otaNotFound]⟩ ∧
    runLoop (iterB oStartReject) (3 + 1) c3StateB =
      ⟨{ c3StateB.st with paramUrl := .str "u", otaStartStatus := .bool false },
        c3StateB.k + 1,
        c3StateB.evs ++ [Ev.call .startOta true, Ev.log .startOtaFailed]⟩ :=
  ⟨(C3_fatal_short_circuit.1 oNotFound c3StateA 3 Value.none (.str "ota")
      (by decide) (by decide) (by decide) rfl rfl rfl rfl).1,
   (C3_fatal_short_circuit.2 oStartReject c3StateB 3 (.str "u") (.bool false)
      (by decide) rfl (by decide) (by decide) rfl rfl rfl).1⟩

/-- C4: phase B entry condition. If phase A's final status does not contain
the success indicator, or the upload response carries no `image_url`, then
no phase B sub-step (property resolution, node params, start command,
status poll) is ever invoked in the whole run. -/
theorem C4_phaseB_entry (o : Oracle) (p c : String) :
    (pyContains (ota_upgrade o p c).stA.status "success" ≠ some true →
      callCount .getServiceParams (ota_upgrade o p c).evs = 0 ∧
      callCount .getNodeParams (ota_upgrade o p c).evs = 0 ∧
      callCount .startOta (ota_upgrade o p c).evs = 0 ∧
      callCount .checkOta (ota_upgrade o p c).evs = 0) ∧
    (pyContains (ota_upgrade o p c).stA.response "image_url" ≠ some true →
      callCount .getServiceParams (ota_upgrade o p c).evs = 0 ∧
      callCount .getNodeParams (ota_upgrade o p c).evs = 0 ∧
      callCount .startOta (ota_upgrade o p c).evs = 0 ∧
      callCount .checkOta (ota_upgrade o p c).evs = 0) := by
  cases h0 : o 0 with
  | exc e =>
    have he : (ota_upgrade o p c).evs = [Ev.call .readFile false, Ev.log .outerError] := by
      simp [ota_upgrade, h0]
    constructor <;> intro _ <;>
      exact ⟨by rw [he]; simp, by rw [he]; simp, by rw [he]; simp, by rw [he]; simp⟩
  | ok v =>
    have hA : ∀ t, t ≠ Step.readFile → doneA t initA = true →
        callCount t (loopAResult o).evs = 0 := by
      intro t ht hd
      obtain ⟨ΔA, heA, hskipA, hmono, hao⟩ := loopAResult_spec o t
      rw [heA]
      simp [hskipA hd, Ne.symm ht]
    have hGS := hA Step.getServiceParams (by decide) rfl
    have hNP := hA Step.getNodeParams (by decide) rfl
    have hSO := hA Step.startOta (by decide) rfl
    have hCO := hA Step.checkOta (by decide) rfl
    have hrun : ota_upgrade o p c =
        runPost o (absPathOf p c) (imgName (absPathOf p c)) (loopAResult o) := by
      simp [ota_upgrade, h0]
    rw [hrun]
    by_cases h1 : isNone (loopAResult o).st.nodeObject = true
    · have hevs : (runPost o (absPathOf p c) (imgName (absPathOf p c))
          (loopAResult o)).evs = (loopAResult o).evs ++ [Ev.log .sessionInitFailed] := by
        simp [runPost, h1]
      constructor <;> intro _ <;>
        exact ⟨by rw [hevs]; simp [hGS], by rw [hevs]; simp [hNP],
          by rw [hevs]; simp [hSO], by rw [hevs]; simp [hCO]⟩
    · by_cases h2 : truthy (loopAResult o).st.status = true
      · cases hc : pyContains (loopAResult o).st.status "success" with
        | none =>
          have hevs : (runPost o (absPathOf p c) (imgName (absPathOf p c))
              (loopAResult o)).evs = (loopAResult o).evs ++ [Ev.log .outerError] := by
            simp [runPost, h1, h2, hc]
          constructor <;> intro _ <;>
            exact ⟨by rw [hevs]; simp [hGS], by rw [hevs]; simp [hNP],
              by rw [hevs]; simp [hSO], by rw [hevs]; simp [hCO]⟩
        | some b =>
          cases b with
          | false =>
            have hevs : (runPost o (absPathOf p c) (imgName (absPathOf p c))
                (loopAResult o)).evs = (loopAResult o).evs ++ [Ev.log .otaFailedA] := by
              simp [runPost, h1, h2, hc]
            constructor <;> intro _ <;>
              exact ⟨by rw [hevs]; simp [hGS], by rw [hevs]; simp [hNP],
                by rw [hevs]; simp [hSO], by rw [hevs]; simp [hCO]⟩
          | true =>
            have hstA : (runPost o (absPathOf p c) (imgName (absPathOf p c))
                (loopAResult o)).stA = (loopAResult o).st := by
              by_cases h5 : eqNoneOrFalse (loopBResult o (loopAResult o)).st.otaStatus
                  = true <;>
                simp [runPost, h1, h2, hc, h5]
            constructor
            · intro hcontra
              rw [hstA] at hcontra
              exact absurd hc hcontra
            · intro hni
              rw [hstA] at hni
              have hBcalls : ∀ t, callCount t (loopBResult o (loopAResult o)).evs =
                  callCount t ((loopAResult o).evs ++ [Ev.log .uploadReqSuccess]) := by
                intro t
                exact loopB_no_calls o MAX_HTTP_CONNECTION_RETRIES
                  ⟨initB (loopAResult o).st.response, (loopAResult o).k,
                    (loopAResult o).evs ++ [Ev.log .uploadReqSuccess]⟩ hni t
              by_cases h5 : eqNoneOrFalse (loopBResult o (loopAResult o)).st.otaStatus = true
              · have hevs : (runPost o (absPathOf p c) (imgName (absPathOf p c))
                    (loopAResult o)).evs =
                    (loopBResult o (loopAResult o)).evs ++ [Ev.log .otaFailedB] := by
                  simp [runPost, h1, h2, hc, h5]
                exact ⟨by rw [hevs]; simp [hBcalls, hGS],
                  by rw [hevs]; simp [hBcalls, hNP],
                  by rw [hevs]; simp [hBcalls, hSO],
                  by rw [hevs]; simp [hBcalls, hCO]⟩
              · have hevs : (runPost o (absPathOf p c) (imgName (absPathOf p c))
                    (loopAResult o)).evs = (loopBResult o (loopAResult o)).evs := by
                  simp [runPost, h1, h2, hc, h5]
                exact ⟨by rw [hevs]; simp [hBcalls, hGS],
                  by rw [hevs]; simp [hBcalls, hNP],
                  by rw [hevs]; simp [hBcalls, hSO],
                  by rw [hevs]; simp [hBcalls, hCO]⟩
      · have hevs : (runPost o (absPathOf p c) (imgName (absPathOf p c))
            (loopAResult o)).evs = (loopAResult o).evs ++ [Ev.log .otaFailedA] := by
          simp [runPost, h1, h2]
        constructor <;> intro _ <;>
          exact ⟨by rw [hevs]; simp [hGS], by rw [hevs]; simp [hNP],
            by rw [hevs]; simp [hSO], by rw [hevs]; simp [hCO]⟩

/-- C4 witness: a run whose phase A fails (file read raises) performs no
phase B sub-step. -/
theorem C4_phaseB_entry_w :
    callCount .getServiceParams (ota_upgrade oReadFail "fw.bin" "/cwd").evs = 0 ∧
    callCount .getNodeParams (ota_upgrade oReadFail "fw.bin" "/cwd").evs = 0 ∧
    callCount .startOta (ota_upgrade oReadFail "fw.bin" "/cwd").evs = 0 ∧
    callCount .checkOta (ota_upgrade oReadFail "fw.bin" "/cwd").evs = 0 :=
  (C4_phaseB_entry oReadFail "fw.bin" "/cwd").1 (by decide)

/-- C5: outcome totality and success condition. Every run of `ota_upgrade`
terminates in one of the defined outcomes (the embedding is a total
function); the outcome is success exactly when phase A produced a node
handle and a status containing the success indicator and phase B's final
polled status is neither `None` nor `False` (Python `in [None, False]`);
every non-success outcome leaves its distinguishing log message in the
trace. -/

theorem C5_outcome_totality (o : Oracle) (p c : String) :
    ((ota_upgrade o p c).outcome = .success ↔
      (isNone (ota_upgrade o p c).stA.nodeObject = false ∧
       truthy (ota_upgrade o p c).stA.status = true ∧
       pyContains (ota_upgrade o p c).stA.status "success" = some true ∧
       eqNoneOrFalse (ota_upgrade o p c).stB.otaStatus = false)) ∧
    ((ota_upgrade o p c).outcome ≠ .success →
      Ev.log (failMsg (ota_upgrade o p c).outcome) ∈ (ota_upgrade o p c).evs) := by
  cases h0 : o 0 with
  | exc e =>
    have hres : ota_upgrade o p c = ⟨absPathOf p c, imgName (absPathOf p c), initA,
        initB .none, [Ev.call .readFile false, Ev.log .outerError], .caughtError⟩ := by
      simp [ota_upgrade, h0]
    rw [hres]
    refine ⟨?_, ?_⟩
    · constructor
      · intro h; exact absurd h (by simp)
      · intro ⟨ha, hb, hc, hd⟩; exact absurd hb (by simp [initA, truthy])
    · intro _; simp [failMsg]
  | ok v =>
    have hrun : ota_upgrade o p c =
        runPost o (absPathOf p c) (imgName (absPathOf p c)) (loopAResult o) := by
      simp [ota_upgrade, h0]
    rw [hrun]
    by_cases h1 : isNone (loopAResult o).st.nodeObject = true
    · have hres : runPost o (absPathOf p c) (imgName (absPathOf p c)) (loopAResult o) =
          ⟨absPathOf p c, imgName (absPathOf p c), (loopAResult o).st,
            initB (loopAResult o).st.response,
            (loopAResult o).evs ++ [Ev.log .sessionInitFailed], .sessionFailed⟩ := by
        simp [runPost, h1]
      rw [hres]
      refine ⟨?_, fun _ => by simp [failMsg]⟩
      constructor
      · intro h; exact absurd h (by simp)
      · intro ⟨ha, hb, hc, hd⟩; simp at ha; exact absurd h1 (by simp [ha])
    · by_cases h2 : truthy (loopAResult o).st.status = true
      · cases hc : pyContains (loopAResult o).st.status "success" with
        | none =>
          have hres : runPost o (absPathOf p c) (imgName (absPathOf p c)) (loopAResult o) =
              ⟨absPathOf p c, imgName (absPathOf p c), (loopAResult o).st,
                initB (loopAResult o).st.response,
                (loopAResult o).evs ++ [Ev.log .outerError], .caughtError⟩ := by
            simp [runPost, h1, h2, hc]
          rw [hres]
          refine ⟨?_, fun _ => by simp [failMsg]⟩
          constructor
          · intro h; exact absurd h (by simp)
          · intro ⟨ha, hb, hcc, hd⟩
            rw [hc] at hcc
            exact absurd hcc (by simp)
        | some b =>
          cases b with
          | false =>
            have hres : runPost o (absPathOf p c) (imgName (absPathOf p c)) (loopAResult o) =
                ⟨absPathOf p c, imgName (absPathOf p c), (loopAResult o).st,
                  initB (loopAResult o).st.response,
                  (loopAResult o).evs ++ [Ev.log .otaFailedA], .phaseAFailed⟩ := by
              simp [runPost, h1, h2, hc]
            rw [hres]
            refine ⟨?_, fun _ => by simp [failMsg]⟩
            constructor
            · intro h; exact absurd h (by simp)
            · intro ⟨ha, hb, hcc, hd⟩
              rw [hc] at hcc
              exact absurd hcc (by simp)
          | true =>
            by_cases h5 : eqNoneOrFalse (loopBResult o (loopAResult o)).st.otaStatus = true
            · have hres : runPost o (absPathOf p c) (imgName (absPathOf p c))
                  (loopAResult o) =
                  ⟨absPathOf p c, imgName (absPathOf p c), (loopAResult o).st,
                    (loopBResult o (loopAResult o)).st,
                    (loopBResult o (loopAResult o)).evs ++ [Ev.log .otaFailedB],
                    .phaseBFailed⟩ := by
                simp [runPost, h1, h2, hc, h5]
              rw [hres]
              refine ⟨?_, fun _ => by simp [failMsg]⟩
              constructor
              · intro h; exact absurd h (by simp)
              · intro ⟨ha, hb, hcc, hd⟩; simp at hd; exact absurd h5 (by simp [hd])
            · have hres : runPost o (absPathOf p c) (imgName (absPathOf p c))
                  (loopAResult o) =
                  ⟨absPathOf p c, imgName (absPathOf p c), (loopAResult o).st,
                    (loopBResult o (loopAResult o)).st,
                    (loopBResult o (loopAResult o)).evs, .success⟩ := by
                simp [runPost, h1, h2, hc, h5]
              rw [hres]
              refine ⟨?_, fun hne => absurd rfl hne⟩
              constructor
              · intro _
                exact ⟨by simpa using h1, h2, hc, by simpa using h5⟩
              · intro _; rfl
      · have hres : runPost o (absPathOf p c) (imgName (absPathOf p c)) (loopAResult o) =
            ⟨absPathOf p c, imgName (absPathOf p c), (loopAResult o).st,
              initB (loopAResult o).st.response,
              (loopAResult o).evs ++ [Ev.log .otaFailedA], .phaseAFailed⟩ := by
          simp [runPost, h1, h2]
        rw [hres]
        refine ⟨?_, fun _ => by simp [failMsg]⟩
        constructor
        · intro h; exact absurd h (by simp)
        · intro ⟨ha, hb, hcc, hd⟩; exact absurd hb (by simp [h2])

/-- C5 witness: the distinguishing message of a concrete failing run. -/
theorem C5_outcome_totality_w :
    Ev.log (failMsg (ota_upgrade oReadFail "fw.bin" "/cwd").outcome) ∈
      (ota_upgrade oReadFail "fw.bin" "/cwd").evs :=
  (C5_outcome_totality oReadFail "fw.bin" "/cwd").2 (by decide)

/-- C6: success short-circuit. A truthy upload status makes the phase A
loop exit immediately — the result does not depend on the remaining budget
and no sleep is added; any returned value of the status poll (truthy or
not) likewise exits the phase B loop immediately. -/

theorem C6_success_short_circuit :
    (∀ (o : Oracle) (s : Sout StA) (r : Nat) (a b : Value),
      truthy s.st.currSession = true → truthy s.st.nodeObject = true →
      truthy s.st.serviceObj = true → truthy s.st.serviceConfig = true →
      truthy s.st.status = false → truthy s.st.response = false →
      o s.k = .ok (.list [a, b]) → truthy a = true →
      runLoop (iterA o) (r + 1) s =
        ⟨{ s.st with status := a, response := b }, s.k + 1,
          s.evs ++ [Ev.call .upload true]⟩ ∧
      sleepCount (runLoop (iterA o) (r + 1) s).evs = sleepCount s.evs) ∧
    (∀ (o : Oracle) (s : Sout StB) (r : Nat) (u v : Value),
      pyContains s.st.response "image_url" = some true →
      pyIndex s.st.response "image_url" = some u →
      truthy s.st.readParams = true → truthy s.st.nodeParams = true →
      truthy s.st.otaStartStatus = true → truthy s.st.otaStatus = false →
      o s.k = .ok v →
      runLoop (iterB o) (r + 1) s =
        ⟨{ s.st with paramUrl := u, otaStatus := v }, s.k + 1,
          s.evs ++ [Ev.call .checkOta true]⟩ ∧
      sleepCount (runLoop (iterB o) (r + 1) s).evs = sleepCount s.evs) := by
  constructor
  · intro o s r a b h1 h2 h3 h4 h5 h6 ho ha
    have hiter : iterA o s = .br ⟨{ s.st with status := a, response := b }, s.k + 1,
        s.evs ++ [Ev.call .upload true]⟩ := by
      simp [iterA, runSubsteps, stepsA, mkStep, sessionDef, nodeDef, serviceDef, verifyDef,
        uploadDef, h1, h2, h3, h4, h5, h6, ho, unpack2, ha]
    have he : runLoop (iterA o) (r + 1) s = ⟨{ s.st with status := a, response := b },
        s.k + 1, s.evs ++ [Ev.call .upload true]⟩ := by
      simp [runLoop, hiter]
    exact ⟨he, by rw [he]; simp⟩
  · intro o s r u v hc hx hrp hnp hst hos ho
    have hiter : iterB o s = .br ⟨{ s.st with paramUrl := u, otaStatus := v }, s.k + 1,
        s.evs ++ [Ev.call .checkOta true]⟩ := by
      simp [iterB, hc, hx, runSubsteps, stepsB, mkStep, svcParamsDef, nodeParamsDef,
        startOtaDef, checkOtaDef, hrp, hnp, hst, hos, ho]
    have he : runLoop (iterB o) (r + 1) s = ⟨{ s.st with paramUrl := u, otaStatus := v },
        s.k + 1, s.evs ++ [Ev.call .checkOta true]⟩ := by
      simp [runLoop, hiter]
    exact ⟨he, by rw [he]; simp⟩

/-- C6 witness: both short-circuits at concrete states and oracles. -/
theorem C6_success_short_circuit_w :
    runLoop (iterA oUploadOk) (3 + 1) c6StateA =
      ⟨{ c6StateA.st with
          status := .str "success",
          response := .dict [("image_url", .str "u")] }, c6StateA.k + 1,
        c6StateA.evs ++ [Ev.call .upload true]⟩ ∧
    runLoop (iterB oPollOk) (3 + 1) c6StateB =
      ⟨{ c6StateB.st with paramUrl := .str "u", otaStatus := .str "done" },
        c6StateB.k + 1, c6StateB.evs ++ [Ev.call .checkOta true]⟩ :=
  ⟨(C6_success_short_circuit.1 oUploadOk c6StateA 3 (.str "success")
      (.dict [("image_url", .str "u")]) (by decide) (by decide) (by decide)
      (by decide) rfl rfl rfl (by decide)).1,
   (C6_success_short_circuit.2 oPollOk c6StateB 3 (.str "u") (.str "done")
      (by decide) rfl (by decide) (by decide) (by decide) rfl rfl).1⟩

/-- If every sub-step before `d` is cached (its guard is false) and `d`'s
guard holds, an exception raised by the call at `d` is what the whole
sub-step chain produces: the cached prefix is skipped without consuming
the oracle. -/
lemma runSubsteps_exc {σ : Type} (o : Oracle) (e : Exc) :
    ∀ (pre : List (SubstepDef σ)) (d : SubstepDef σ) (post : List (SubstepDef σ))
      (s : Sout σ),
    (∀ p ∈ pre, p.need s.st = false) →
    d.need s.st = true →
    o s.k = .exc e →
    runSubsteps o (pre ++ d :: post) s = excRes d.mine e s.st s.k s.evs := by
  intro pre
  induction pre with
  | nil =>
    intro d post s hpre hd ho
    have hm : mkStep d o s = excRes d.mine e s.st s.k s.evs := by
      simp [mkStep, hd, ho]
    cases e with
    | ssl => simp [runSubsteps, hm, excRes]
    | transient => simp [runSubsteps, hm, excRes]
    | other => simp [runSubsteps, hm, excRes]
  | cons p pre ih =>
    intro d post s hpre hd ho
    have hp : p.need s.st = false := hpre p (by simp)
    have hm : mkStep p o s = .nx s := by simp [mkStep, hp]
    rw [List.cons_append]
    show (match mkStep p o s with
      | .nx s1 => runSubsteps o (pre ++ d :: post) s1
      | .br s1 => .br s1
      | .tr s1 => .tr s1) = excRes d.mine e s.st s.k s.evs
    rw [hm]
    exact ih d post s (fun q hq => hpre q (by simp [hq])) hd ho

/-- No phase B guard reads `paramUrl`, so the per-iteration
`param_url_to_set` assignment does not change which sub-steps are needed. -/
lemma stepsB_need_paramUrl :
    ∀ p ∈ stepsB, ∀ (st : StB) (u : Value),
      p.need { st with paramUrl := u } = p.need st := by
  intro p hp st u
  simp only [stepsB, List.mem_cons, List.not_mem_nil, or_false] at hp
  rcases hp with rfl | rfl | rfl | rfl <;> rfl

/-- C7: transient versus secure-transport failures, at any sub-step of
either phase. For every decomposition of a phase's sub-step chain as
`pre ++ d :: post` where all of `pre` is cached and `d` is the first
not-yet-cached sub-step, a `NetworkError`/`RequestTimeoutError` raised at
`d` decrements the budget by exactly one, logs the transient error, sleeps
once, logs the remaining attempts while any remain, and resumes the loop
with the memo state unchanged (so the next iteration again skips the
cached `pre` and restarts from `d`, the first not-yet-cached sub-step);
an `SSLError` raised at `d` terminates the phase at once, with no sleep
and no further attempts, whatever budget remains. Instantiating `pre`
ranges over all nine sub-steps: session, node and service construction,
discovery, upload, service-params, node-params, start and poll. -/

theorem C7_transient_vs_ssl :
    (∀ (o : Oracle) (s : Sout StA) (r : Nat) (d : SubstepDef StA)
       (pre post : List (SubstepDef StA)),
      stepsA = pre ++ d :: post →
      (∀ p ∈ pre, p.need s.st = false) →
      d.need s.st = true →
      o s.k = .exc .transient →
      runLoop (iterA o) (r + 1) s = runLoop (iterA o) r
        ⟨s.st, s.k + 1, (s.evs ++ [Ev.call d.mine false, Ev.log .connError]) ++
          Ev.sleep :: (if 0 < r then [Ev.retriesLeft r] else [])⟩) ∧
    (∀ (o : Oracle) (s : Sout StA) (r : Nat) (d : SubstepDef StA)
       (pre post : List (SubstepDef StA)),
      stepsA = pre ++ d :: post →
      (∀ p ∈ pre, p.need s.st = false) →
      d.need s.st = true →
      o s.k = .exc .ssl →
      runLoop (iterA o) (r + 1) s =
        ⟨s.st, s.k + 1, s.evs ++ [Ev.call d.mine false, Ev.log .sslError]⟩ ∧
      sleepCount (runLoop (iterA o) (r + 1) s).evs = sleepCount s.evs) ∧
    (∀ (o : Oracle) (s : Sout StB) (r : Nat) (u : Value) (d : SubstepDef StB)
       (pre post : List (SubstepDef StB)),
      pyContains s.st.response "image_url" = some true →
      pyIndex s.st.response "image_url" = some u →
      stepsB = pre ++ d :: post →
      (∀ p ∈ pre, p.need s.st = false) →
      d.need s.st = true →
      o s.k = .exc .transient →
      runLoop (iterB o) (r + 1) s = runLoop (iterB o) r
        ⟨{ s.st with paramUrl := u }, s.k + 1,
          (s.evs ++ [Ev.call d.mine false, Ev.log .connError]) ++
            Ev.sleep :: (if 0 < r then [Ev.retriesLeft r] else [])⟩) ∧
    (∀ (o : Oracle) (s : Sout StB) (r : Nat) (u : Value) (d : SubstepDef StB)
       (pre post : List (SubstepDef StB)),
      pyContains s.st.response "image_url" = some true →
      pyIndex s.st.response "image_url" = some u →
      stepsB = pre ++ d :: post →
      (∀ p ∈ pre, p.need s.st = false) →
      d.need s.st = true →
      o s.k = .exc .ssl →
      runLoop (iterB o) (r + 1) s =
        ⟨{ s.st with paramUrl := u }, s.k + 1,
          s.evs ++ [Ev.call d.mine false, Ev.log .sslError]⟩ ∧
      sleepCount (runLoop (iterB o) (r + 1) s).evs = sleepCount s.evs) := by
  refine ⟨?_, ?_, ?_, ?_⟩
  · intro o s r d pre post hdec hpre hd ho
    have hiter : iterA o s = .tr ⟨s.st, s.k + 1,
        s.evs ++ [Ev.call d.mine false, Ev.log .connError]⟩ := by
      unfold iterA
      rw [hdec, runSubsteps_exc o .transient pre d post s hpre hd ho]
      rfl
    simp [runLoop, hiter]
  · intro o s r d pre post hdec hpre hd ho
    have hiter : iterA o s = .br ⟨s.st, s.k + 1,
        s.evs ++ [Ev.call d.mine false, Ev.log .sslError]⟩ := by
      unfold iterA
      rw [hdec, runSubsteps_exc o .ssl pre d post s hpre hd ho]
      rfl
    have he : runLoop (iterA o) (r + 1) s =
        ⟨s.st, s.k + 1, s.evs ++ [Ev.call d.mine false, Ev.log .sslError]⟩ := by
      simp [runLoop, hiter]
    exact ⟨he, by rw [he]; simp⟩
  · intro o s r u d pre post hc hx hdec hpre hd ho
    have hpre2 : ∀ p ∈ pre, p.need { s.st with paramUrl := u } = false := by
      intro p hp
      rw [stepsB_need_paramUrl p (by rw [hdec]; simp [hp]) s.st u]
      exact hpre p hp
    have hd2 : d.need { s.st with paramUrl := u } = true := by
      rw [stepsB_need_paramUrl d (by rw [hdec]; simp) s.st u]
      exact hd
    have hiter : iterB o s = .tr ⟨{ s.st with paramUrl := u }, s.k + 1,
        s.evs ++ [Ev.call d.mine false, Ev.log .connError]⟩ := by
      have hrun : iterB o s =
          runSubsteps o stepsB ⟨{ s.st with paramUrl := u }, s.k, s.evs⟩ := by
        simp [iterB, hc, hx]
      rw [hrun, hdec,
        runSubsteps_exc o .transient pre d post
          ⟨{ s.st with paramUrl := u }, s.k, s.evs⟩ hpre2 hd2 ho]
      rfl
    simp [runLoop, hiter]
  · intro o s r u d pre post hc hx hdec hpre hd ho
    have hpre2 : ∀ p ∈ pre, p.need { s.st with paramUrl := u } = false := by
      intro p hp
      rw [stepsB_need_paramUrl p (by rw [hdec]; simp [hp]) s.st u]
      exact hpre p hp
    have hd2 : d.need { s.st with paramUrl := u } = true := by
      rw [stepsB_need_paramUrl d (by rw [hdec]; simp) s.st u]
      exact hd
    have hiter : iterB o s = .br ⟨{ s.st with paramUrl := u }, s.k + 1,
        s.evs ++ [Ev.call d.mine false, Ev.log .sslError]⟩ := by
      have hrun : iterB o s =
          runSubsteps o stepsB ⟨{ s.st with paramUrl := u }, s.k, s.evs⟩ := by
        simp [iterB, hc, hx]
      rw [hrun, hdec,
        runSubsteps_exc o .ssl pre d post
          ⟨{ s.st with paramUrl := u }, s.k, s.evs⟩ hpre2 hd2 ho]
      rfl
    have he : runLoop (iterB o) (r + 1) s =
        ⟨{ s.st with paramUrl := u }, s.k + 1,
          s.evs ++ [Ev.call d.mine false, Ev.log .sslError]⟩ := by
      simp [runLoop, hiter]
    exact ⟨he, by rw [he]; simp⟩

/-- C7 witness: the four behaviours at concrete states and oracles, at
mid-chain sub-steps: the upload sub-step of phase A with session, node,
service and config all cached, and the start-OTA sub-step of phase B with
service and node params cached. -/
theorem C7_transient_vs_ssl_w :
    runLoop (iterA oTransient) (1 + 1) c6StateA = runLoop (iterA oTransient) 1
      ⟨c6StateA.st, c6StateA.k + 1,
        (c6StateA.evs ++ [Ev.call Step.upload false, Ev.log .connError]) ++
          Ev.sleep :: (if 0 < 1 then [Ev.retriesLeft 1] else [])⟩ ∧
    runLoop (iterA oSsl) (1 + 1) c6StateA =
      ⟨c6StateA.st, c6StateA.k + 1,
        c6StateA.evs ++ [Ev.call Step.upload false, Ev.log .sslError]⟩ ∧
    runLoop (iterB oTransient) (1 + 1) c3StateB = runLoop (iterB oTransient) 1
      ⟨{ c3StateB.st with paramUrl := .str "u" }, c3StateB.k + 1,
        (c3StateB.evs ++ [Ev.call Step.startOta false, Ev.log .connError]) ++
          Ev.sleep :: (if 0 < 1 then [Ev.retriesLeft 1] else [])⟩ ∧
    runLoop (iterB oSsl) (1 + 1) c3StateB =
      ⟨{ c3StateB.st with paramUrl := .str "u" }, c3StateB.k + 1,
        c3StateB.evs ++ [Ev.call Step.startOta false, Ev.log .sslError]⟩ :=
  ⟨C7_transient_vs_ssl.1 oTransient c6StateA 1 uploadDef
      [sessionDef, nodeDef, serviceDef, verifyDef] [] rfl (by decide) (by decide) rfl,
   (C7_transient_vs_ssl.2.1 oSsl c6StateA 1 uploadDef
      [sessionDef, nodeDef, serviceDef, verifyDef] [] rfl (by decide) (by decide) rfl).1,
   C7_transient_vs_ssl.2.2.1 oTransient c3StateB 1 (.str "u") startOtaDef
      [svcParamsDef, nodeParamsDef] [checkOtaDef] (by decide) rfl rfl (by decide)
      (by decide) rfl,
   (C7_transient_vs_ssl.2.2.2 oSsl c3StateB 1 (.str "u") startOtaDef
      [svcParamsDef, nodeParamsDef] [checkOtaDef] (by decide) rfl rfl (by decide)
      (by decide) rfl).1⟩

/-- C8: image-file handling. The image file is read exactly once, before
any phase A sub-step (it is the first trace event); if the read raises,
the run fails with zero retries, zero sleeps and no collaborator calls;
an absolute path is used as is while a relative one is joined onto the
current working directory. -/

theorem C8_image_file_handling :
    (∀ (o : Oracle) (p c : String), ∃ b,
      (ota_upgrade o p c).evs.head? = some (Ev.call .readFile b) ∧
      callCount .readFile (ota_upgrade o p c).evs = 1) ∧
    (∀ (o : Oracle) (p c : String) (e : Exc), o 0 = .exc e →
      (ota_upgrade o p c).evs = [Ev.call .readFile false, Ev.log .outerError] ∧
      sleepCount (ota_upgrade o p c).evs = 0 ∧
      (∀ t, t ≠ Step.readFile → callCount t (ota_upgrade o p c).evs = 0) ∧
      (ota_upgrade o p c).outcome = .caughtError) ∧
    (∀ (o : Oracle) (p c : String),
      (pyIsAbs p = true → (ota_upgrade o p c).absPath = p) ∧
      (pyIsAbs p = false → (ota_upgrade o p c).absPath = pyJoin c p)) := by
  refine ⟨?_, ?_, ?_⟩
  · intro o p c
    cases h0 : o 0 with
    | exc e =>
      refine ⟨false, ?_, ?_⟩ <;> simp [ota_upgrade, h0]
    | ok v =>
      obtain ⟨ΔA, heA, hskipA, _, _⟩ := loopAResult_spec o .readFile
      obtain ⟨T, hT, hTc⟩ := runPost_evs_ext o (absPathOf p c)
        (imgName (absPathOf p c)) (loopAResult o)
      have hrun : ota_upgrade o p c =
          runPost o (absPathOf p c) (imgName (absPathOf p c)) (loopAResult o) := by
        simp [ota_upgrade, h0]
      refine ⟨true, ?_, ?_⟩
      · rw [hrun, hT, heA]
        simp
      · rw [hrun, hT, heA]
        simp [hskipA rfl, hTc]
  · intro o p c e h0
    have hres : ota_upgrade o p c = ⟨absPathOf p c, imgName (absPathOf p c), initA,
        initB .none, [Ev.call .readFile false, Ev.log .outerError], .caughtError⟩ := by
      simp [ota_upgrade, h0]
    refine ⟨by rw [hres], by rw [hres]; simp, ?_, by rw [hres]⟩
    intro t ht
    rw [hres]
    simp [Ne.symm ht]
  · intro o p c
    have habs : (ota_upgrade o p c).absPath = absPathOf p c := by
      cases h0 : o 0 with
      | exc e => simp [ota_upgrade, h0]
      | ok v =>
        have hrun : ota_upgrade o p c =
            runPost o (absPathOf p c) (imgName (absPathOf p c)) (loopAResult o) := by
          simp [ota_upgrade, h0]
        rw [hrun, runPost_absPath]
    constructor
    · intro h; rw [habs]; simp [absPathOf, h]
    · intro h; rw [habs]; simp [absPathOf, h]

/-- C8 witness: the fatal-read behaviour and the relative-path resolution
at concrete inputs. -/
theorem C8_image_file_handling_w :
    ((ota_upgrade oReadFail "fw.bin" "/cwd").evs =
      [Ev.call .readFile false, Ev.log .outerError] ∧
     sleepCount (ota_upgrade oReadFail "fw.bin" "/cwd").evs = 0 ∧
     (∀ t, t ≠ Step.readFile →
        callCount t (ota_upgrade oReadFail "fw.bin" "/cwd").evs = 0) ∧
     (ota_upgrade oReadFail "fw.bin" "/cwd").outcome = .caughtError) ∧
    (ota_upgrade oReadFail "fw.bin" "/cwd").absPath = pyJoin "/cwd" "fw.bin" :=
  ⟨C8_image_file_handling.2.1 oReadFail "fw.bin" "/cwd" Exc.other rfl,
   (C8_image_file_handling.2.2 oReadFail "fw.bin" "/cwd").2 (by decide)⟩

/-- C9: truthiness-keyed caching. The memo guards test truthiness of the
stored results, so a sub-step whose successful result is falsy is
re-executed: with the property sets resolving to `([], [])`, the resolution
runs again after a later transient failure (2 successful invocations, 5
total); with the upload returning `(None, None)`, the upload re-runs on
every remaining iteration (5 invocations) — in both cases violating the
after-success-no-reinvocation property that holds for truthy results. -/

theorem C9_truthiness_keyed_caching :
    (okCount .getServiceParams (ota_upgrade (oracleOf c9Script) "fw.bin" "/cwd").evs = 2 ∧
     callCount .getServiceParams (ota_upgrade (oracleOf c9Script) "fw.bin" "/cwd").evs = 5 ∧
     callCount .getNodeParams (ota_upgrade (oracleOf c9Script) "fw.bin" "/cwd").evs = 2 ∧
     afterOkNoCall .getServiceParams (ota_upgrade (oracleOf c9Script) "fw.bin" "/cwd").evs
       = false) ∧
    (okCount .upload (ota_upgrade (oracleOf c9bScript) "fw.bin" "/cwd").evs = 1 ∧
     callCount .upload (ota_upgrade (oracleOf c9bScript) "fw.bin" "/cwd").evs = 5 ∧
     afterOkNoCall .upload (ota_upgrade (oracleOf c9bScript) "fw.bin" "/cwd").evs = false ∧
     (ota_upgrade (oracleOf c9bScript) "fw.bin" "/cwd").outcome = .phaseAFailed) := by
  decide

/-- C10: image-name extraction. The image name passed to the upload is the
portion of the last `'/'`-separated component of the absolutized path that
precedes the first occurrence of the substring `".bin"`, or the whole
component when `".bin"` does not occur in it; e.g. `"app.bin.bin"` yields
`"app"` and `"firmware.img"` stays whole. -/

theorem C10_image_name_extraction :
    (∀ q : String, imgName q =
      String.mk (beforeFirst ['.', 'b', 'i', 'n'] (afterLastCh '/' q.data))) ∧
    imgName "/a/b/app.bin.bin" = "app" ∧
    imgName "firmware.img" = "firmware.img" := by
  refine ⟨?_, by decide, by decide⟩
  intro q
  unfold imgName
  rw [show pySplit ['/'] q.data = pySplitF ['/'] (q.data.length + 1) q.data from rfl,
    pySplitF_getLastD '/' (q.data.length + 1) q.data (by omega)]
  simp only [pySplit_headD]

end Rmaker
